import Mathlib

/-!
A formal model of the collision subsystem of this repository: the
oriented-bounding-box primitive with its separating-axis (SAT)
intersection test, ray intersection and point containment
(`src/collision/OBB.ts`), the hybrid collision pipeline
(`src/collision/HybridCollisionSystem.ts`), and the 2D broad phase
(`src/collision/AkashicCollisionSystem.ts`).

JavaScript numbers are modelled as real numbers (the broad phase is
parametric over a linear ordered field), and the insertion-ordered
string-keyed maps of the pipeline as association lists kept in
insertion order.
-/

noncomputable section

/-- A small epsilon used by the source to discard degenerate axes
(the literal `1e-6` in `OBB.ts`). -/
def axEps : ℝ := 1 / 1000000

/-- A 3-component vector (`THREE.Vector3`) with real components. -/
@[ext]
structure Vec3 where
  x : ℝ
  y : ℝ
  z : ℝ

/-- Componentwise vector addition. -/
def Vec3.add (u v : Vec3) : Vec3 := ⟨u.x + v.x, u.y + v.y, u.z + v.z⟩

/-- Componentwise vector subtraction. -/
def Vec3.sub (u v : Vec3) : Vec3 := ⟨u.x - v.x, u.y - v.y, u.z - v.z⟩

/-- Componentwise vector negation (`Vector3.negate`). -/
def Vec3.neg (u : Vec3) : Vec3 := ⟨-u.x, -u.y, -u.z⟩

/-- Scalar multiplication (`Vector3.multiplyScalar`). -/
def Vec3.smul (r : ℝ) (u : Vec3) : Vec3 := ⟨r * u.x, r * u.y, r * u.z⟩

/-- Componentwise product (`Vector3.multiply`). -/
def Vec3.mulV (u v : Vec3) : Vec3 := ⟨u.x * v.x, u.y * v.y, u.z * v.z⟩

/-- Dot product (`Vector3.dot`). -/
def Vec3.dot (u v : Vec3) : ℝ := u.x * v.x + u.y * v.y + u.z * v.z

/-- Cross product (`Vector3.cross`). -/
def Vec3.cross (u v : Vec3) : Vec3 :=
  ⟨u.y * v.z - u.z * v.y, u.z * v.x - u.x * v.z, u.x * v.y - u.y * v.x⟩

/-- Squared length (`Vector3.lengthSq`). -/
def Vec3.lengthSq (u : Vec3) : ℝ := Vec3.dot u u

/-- Length (`Vector3.length`). -/
def Vec3.length (u : Vec3) : ℝ := Real.sqrt u.lengthSq

/-- Normalization, `Vector3.normalize`: divide by the length, with the
zero length guarded to `1` as in the source library
(`divideScalar(length or 1)`). -/
def Vec3.normalize (u : Vec3) : Vec3 :=
  Vec3.smul (1 / (if u.length = 0 then 1 else u.length)) u

/-- The zero vector (`new THREE.Vector3()`). -/
def Vec3.zero : Vec3 := ⟨0, 0, 0⟩

/-- A 3x3 matrix (`THREE.Matrix3`) stored by columns: `applyMatrix3 v`
is `v.x • colX + v.y • colY + v.z • colZ`. -/
structure Mat3 where
  colX : Vec3
  colY : Vec3
  colZ : Vec3

/-- Matrix-vector application (`Vector3.applyMatrix3`). -/
def Mat3.apply (M : Mat3) (v : Vec3) : Vec3 :=
  Vec3.add (Vec3.add (Vec3.smul v.x M.colX) (Vec3.smul v.y M.colY)) (Vec3.smul v.z M.colZ)

/-- The identity matrix. -/
def Mat3.id : Mat3 := ⟨⟨1, 0, 0⟩, ⟨0, 1, 0⟩, ⟨0, 0, 1⟩⟩

/-- Orthonormality of a 3x3 matrix: unit columns, pairwise orthogonal.
This is the spec's invariant on `OBB.orientation`. -/
def Mat3.Orthonormal (M : Mat3) : Prop :=
  Vec3.lengthSq M.colX = 1 ∧ Vec3.lengthSq M.colY = 1 ∧ Vec3.lengthSq M.colZ = 1 ∧
  Vec3.dot M.colX M.colY = 0 ∧ Vec3.dot M.colX M.colZ = 0 ∧ Vec3.dot M.colY M.colZ = 0

/-- An oriented bounding box (`OBB` in `src/collision/OBB.ts`). -/
structure OBB where
  center : Vec3
  halfExtents : Vec3
  orientation : Mat3

/-- First local axis in world space (`getAxes()[0]`). -/
def OBB.axisX (b : OBB) : Vec3 := Mat3.apply b.orientation ⟨1, 0, 0⟩

/-- Second local axis in world space (`getAxes()[1]`). -/
def OBB.axisY (b : OBB) : Vec3 := Mat3.apply b.orientation ⟨0, 1, 0⟩

/-- Third local axis in world space (`getAxes()[2]`). -/
def OBB.axisZ (b : OBB) : Vec3 := Mat3.apply b.orientation ⟨0, 0, 1⟩

/-- The three axes of the box (`OBB.getAxes`). -/
def OBB.getAxes (b : OBB) : List Vec3 := [b.axisX, b.axisY, b.axisZ]

/-- The scalar interval `{min, max}` returned by `OBB.projectOnAxis`. -/
@[ext]
structure ProjInterval where
  min : ℝ
  max : ℝ

/-- Projection of the box onto an axis (`OBB.projectOnAxis`): the
center projection plus/minus the summed absolute axis contributions,
with the absolute value taken of each whole product
`axes[i].dot(axis) * halfExtents[i]` as in the source. -/
def OBB.projectOnAxis (b : OBB) (axis : Vec3) : ProjInterval :=
  let centerProjection := Vec3.dot b.center axis
  let extent := |Vec3.dot b.axisX axis * b.halfExtents.x| +
                |Vec3.dot b.axisY axis * b.halfExtents.y| +
                |Vec3.dot b.axisZ axis * b.halfExtents.z|
  ⟨centerProjection - extent, centerProjection + extent⟩

/-- Inner loop of `OBB.getCrossProductAxes`: cross one axis of the
first box with every axis of the second, keeping only cross products
whose squared length exceeds `1e-6`. -/
def crossRow (u : Vec3) : List Vec3 → List Vec3
  | [] => []
  | v :: vs =>
      (if axEps < Vec3.lengthSq (Vec3.cross u v) then [Vec3.cross u v] else []) ++ crossRow u vs

/-- `OBB.getCrossProductAxes`: the (up to nine) pairwise cross products
of the two boxes' axes, in source iteration order. -/
def getCrossProductAxes : List Vec3 → List Vec3 → List Vec3
  | [], _ => []
  | u :: us, vs => crossRow u vs ++ getCrossProductAxes us vs

/-- The candidate separating-axis list built by `OBB.intersects`:
the three axes of each box followed by the filtered cross products. -/
def OBB.candidateAxes (b other : OBB) : List Vec3 :=
  b.getAxes ++ other.getAxes ++ getCrossProductAxes b.getAxes other.getAxes

/-- The result record of `OBB.intersects` (`OBBCollisionResult`). -/
structure OBBCollisionResult where
  isColliding : Bool
  penetrationDepth : ℝ
  separatingAxis : Vec3
  contactPoint : Vec3

/-- `OBB.calculateContactPoint`: approximate contact point on the
boundary of the more deeply penetrating box. -/
def OBB.calculateContactPoint (b other : OBB) (separatingAxis : Vec3) : Vec3 :=
  let thisProjection := b.projectOnAxis separatingAxis
  let otherProjection := other.projectOnAxis separatingAxis
  if thisProjection.max < otherProjection.max then
    Vec3.add b.center
      (Vec3.smul (thisProjection.max - Vec3.dot b.center separatingAxis) separatingAxis)
  else
    Vec3.add other.center
      (Vec3.smul (otherProjection.max - Vec3.dot other.center separatingAxis) separatingAxis)

/-- The projection overlap of the two boxes on a given (already
normalized) axis: `min(max1, max2) - max(min1, min2)`. -/
def OBB.overlapOn (b other : OBB) (n : Vec3) : ℝ :=
  min (b.projectOnAxis n).max (other.projectOnAxis n).max -
    max (b.projectOnAxis n).min (other.projectOnAxis n).min

/-- The overlap a candidate axis contributes in the SAT loop: the axis
is normalized before projecting, as in the source. -/
def OBB.axisOverlap (b other : OBB) (axis : Vec3) : ℝ :=
  b.overlapOn other (Vec3.normalize axis)

/-- A candidate axis is tested by the SAT loop when its squared length
is not below `1e-6` (the loop `continue`s otherwise). -/
def testedAxis (ax : Vec3) : Prop := ¬ Vec3.lengthSq ax < axEps

/-- The loop of `OBB.intersects` over the candidate axes.  The
accumulator holds the smallest positive overlap seen so far with its
(normalized) axis; `none` is the initial `Infinity` state.  In the
empty-accumulator terminal case the source would dereference a null
separating axis; that state is unreachable whenever at least one
candidate axis is tested, which holds for every orthonormal
orientation. -/
def OBB.satLoop (b other : OBB) : List Vec3 → Option (ℝ × Vec3) → OBBCollisionResult
  | [], none =>
      { isColliding := true, penetrationDepth := 0,
        separatingAxis := Vec3.zero, contactPoint := Vec3.zero }
  | [], some (p, ax) =>
      let contact := b.calculateContactPoint other ax
      let flipped := if Vec3.dot ax (Vec3.sub other.center b.center) < 0 then Vec3.neg ax else ax
      { isColliding := true, penetrationDepth := p,
        separatingAxis := flipped, contactPoint := contact }
  | axis :: rest, acc =>
      if Vec3.lengthSq axis < axEps then b.satLoop other rest acc
      else
        if b.axisOverlap other axis ≤ 0 then
          { isColliding := false, penetrationDepth := 0,
            separatingAxis := Vec3.normalize axis, contactPoint := Vec3.zero }
        else
          match acc with
          | none => b.satLoop other rest (some (b.axisOverlap other axis, Vec3.normalize axis))
          | some (p, a) =>
              if b.axisOverlap other axis < p then
                b.satLoop other rest (some (b.axisOverlap other axis, Vec3.normalize axis))
              else b.satLoop other rest (some (p, a))

/-- `OBB.intersects`: the 15-axis SAT test with early exit. -/
def OBB.intersects (b other : OBB) : OBBCollisionResult :=
  b.satLoop other (b.candidateAxes other) none

/-- `OBB.containsPoint`: transform the point into the box frame and
compare each projection magnitude against the half-extent, with early
`false` returns mirrored by the nested conditionals. -/
def OBB.containsPoint (b : OBB) (point : Vec3) : Bool :=
  let localPoint := Vec3.sub point b.center
  if |Vec3.dot localPoint b.axisX| > b.halfExtents.x then false
  else if |Vec3.dot localPoint b.axisY| > b.halfExtents.y then false
  else if |Vec3.dot localPoint b.axisZ| > b.halfExtents.z then false
  else true

/-- The largest half-extent of a box. -/
def OBB.maxHalfExtent (b : OBB) : ℝ :=
  max b.halfExtents.x (max b.halfExtents.y b.halfExtents.z)

/-- The full characterization of `OBB.intersects` claimed for the SAT
test: no collision exactly when some tested candidate axis has
non-positive overlap, and on collision the reported penetration depth
is the minimum of the (all strictly positive) tested overlaps. -/
def satConclusion (b other : OBB) : Prop :=
  ((b.intersects other).isColliding = false ↔
    ∃ ax ∈ b.candidateAxes other, testedAxis ax ∧ b.axisOverlap other ax ≤ 0) ∧
  ((b.intersects other).isColliding = true →
    (∀ ax ∈ b.candidateAxes other, testedAxis ax → 0 < b.axisOverlap other ax) ∧
    (∃ ax ∈ b.candidateAxes other, testedAxis ax ∧
      (b.intersects other).penetrationDepth = b.axisOverlap other ax) ∧
    ∀ ax ∈ b.candidateAxes other, testedAxis ax →
      (b.intersects other).penetrationDepth ≤ b.axisOverlap other ax)

/-- Symmetry of the SAT test: both orders agree on `isColliding`, and
when both report a collision the penetration depths agree. -/
def symConclusion (b other : OBB) : Prop :=
  (b.intersects other).isColliding = (other.intersects b).isColliding ∧
  ((b.intersects other).isColliding = true → (other.intersects b).isColliding = true →
    (b.intersects other).penetrationDepth = (other.intersects b).penetrationDepth)

/-- The plain axis-aligned bounding-box overlap test, written from the
specification's words for the axis-aligned reduction claim: on each of
the three world axes the intervals
`[center - halfExtent, center + halfExtent]` must overlap strictly. -/
def specAABBOverlap (b other : OBB) : Prop :=
  max (b.center.x - b.halfExtents.x) (other.center.x - other.halfExtents.x) <
    min (b.center.x + b.halfExtents.x) (other.center.x + other.halfExtents.x) ∧
  max (b.center.y - b.halfExtents.y) (other.center.y - other.halfExtents.y) <
    min (b.center.y + b.halfExtents.y) (other.center.y + other.halfExtents.y) ∧
  max (b.center.z - b.halfExtents.z) (other.center.z - other.halfExtents.z) <
    min (b.center.z + b.halfExtents.z) (other.center.z + other.halfExtents.z)

/-- An axis-aligned unit cube (half-extents 1) centered at the origin. -/
def boxUnitAtOrigin : OBB := ⟨Vec3.zero, ⟨1, 1, 1⟩, Mat3.id⟩

/-- An axis-aligned unit cube centered on the x axis at offset `t`. -/
def boxUnitAtX (t : ℝ) : OBB := ⟨⟨t, 0, 0⟩, ⟨1, 1, 1⟩, Mat3.id⟩

/-- An identity-oriented box with all half-extents `-1`: a constructible
value on which the SAT test and the interval overlap test disagree. -/
def negBox : OBB := ⟨Vec3.zero, ⟨-1, -1, -1⟩, Mat3.id⟩

/-! Meshes and the ray/pipeline layer. -/

/-- The shape tags of `CollisionObject.shapeType`. -/
inductive ShapeKind where
  | box
  | cylinder
  | triangular
  | sphere

/-- External mesh state as consumed by the collision system: current
world position, rotation, scale, and the geometry's cached local
bounding box (center and half-size).  The world matrix is the
translate-rotate-scale composite of these fields, i.e. the model
assumes the renderer has refreshed `matrixWorld` from the current
transform, which is the accessor contract the specification states for
external objects. -/
structure Mesh where
  position : Vec3
  rot : Mat3
  scale : Vec3
  geomCenter : Vec3
  geomHalf : Vec3

/-- The linear (upper-left 3x3) part of the mesh's world matrix:
rotation columns scaled componentwise. -/
def Mesh.linear (m : Mesh) : Mat3 :=
  ⟨Vec3.smul m.scale.x m.rot.colX, Vec3.smul m.scale.y m.rot.colY, Vec3.smul m.scale.z m.rot.colZ⟩

/-- `Vector3.setFromMatrixScale`: the lengths of the world matrix's
three columns. -/
def Mesh.extractScale (m : Mesh) : Vec3 :=
  ⟨m.linear.colX.length, m.linear.colY.length, m.linear.colZ.length⟩

/-- `OBB.fromMesh`: world center from the transformed geometry center,
orientation from the matrix's 3x3 block, and half-extents scaled by
the extracted matrix scale. -/
def OBB.fromMesh (m : Mesh) : OBB :=
  { center := Vec3.add (Mat3.apply m.linear m.geomCenter) m.position
    halfExtents := Vec3.mulV m.geomHalf m.extractScale
    orientation := m.linear }

/-- A ray (`THREE.Ray`): origin and direction. -/
structure Ray where
  origin : Vec3
  direction : Vec3

/-- State of the slab loop of `OBB.intersectsRay`: the `tMin`/`tMax`
accumulators, where `none` stands for the initial `-Infinity` and
`+Infinity` respectively. -/
structure SlabState where
  tMin : Option ℝ
  tMax : Option ℝ

/-- `max tMin tNear` with `none` as `-Infinity`. -/
def slabMax : Option ℝ → ℝ → ℝ
  | none, t => t
  | some a, t => max a t

/-- `min tMax tFar` with `none` as `+Infinity`. -/
def slabMin : Option ℝ → ℝ → ℝ
  | none, t => t
  | some a, t => min a t

/-- The `tMin > tMax` comparison on extended accumulators (false while
either accumulator is still infinite). -/
def slabGT : Option ℝ → Option ℝ → Prop
  | some a, some c => c < a
  | some _, none => False
  | none, some _ => False
  | none, none => False

instance slabGT.dec : (a c : Option ℝ) → Decidable (slabGT a c)
  | some a, some c => inferInstanceAs (Decidable (c < a))
  | some _, none => inferInstanceAs (Decidable False)
  | none, some _ => inferInstanceAs (Decidable False)
  | none, none => inferInstanceAs (Decidable False)

/-- One axis iteration of the slab method in `OBB.intersectsRay`:
the parallel-ray branch rejects or leaves the state unchanged; the
regular branch intersects the entry/exit interval and rejects when it
becomes empty.  `none` is the early `return null`. -/
def slabStep (ray : Ray) (rayToCenter : Vec3) (axis : Vec3) (halfExtent : ℝ)
    (st : SlabState) : Option SlabState :=
  if |Vec3.dot ray.direction axis| < axEps then
    if |Vec3.dot rayToCenter axis| > halfExtent then none else some st
  else
    let t1 := (Vec3.dot rayToCenter axis - halfExtent) / Vec3.dot ray.direction axis
    let t2 := (Vec3.dot rayToCenter axis + halfExtent) / Vec3.dot ray.direction axis
    let newMin : Option ℝ := some (slabMax st.tMin (min t1 t2))
    let newMax : Option ℝ := some (slabMin st.tMax (max t1 t2))
    if slabGT newMin newMax then none else some ⟨newMin, newMax⟩

/-- The slab loop over the box's axes paired with their half-extents. -/
def slabFold (ray : Ray) (rayToCenter : Vec3) :
    List (Vec3 × ℝ) → SlabState → Option SlabState
  | [], st => some st
  | (axis, h) :: rest, st =>
      match slabStep ray rayToCenter axis h st with
      | none => none
      | some st2 => slabFold ray rayToCenter rest st2

/-- A ray hit `{distance, point}`.  The distance is `none` for the
`Infinity` distance reachable only when the ray is parallel to all
three axes from inside the slabs; in that state the source computes a
non-finite point, modelled by the placeholder `ray.origin`. -/
structure RayHit where
  distance : Option ℝ
  point : Vec3

/-- `OBB.intersectsRay`: the slab method over the three box axes,
returning the nearest non-negative hit distance and world point. -/
def OBB.intersectsRay (b : OBB) (ray : Ray) : Option RayHit :=
  match slabFold ray (Vec3.sub b.center ray.origin)
      [(b.axisX, b.halfExtents.x), (b.axisY, b.halfExtents.y), (b.axisZ, b.halfExtents.z)]
      ⟨none, none⟩ with
  | none => none
  | some st =>
      let distance : Option ℝ :=
        match st.tMin with
        | some a => if 0 < a then some a else st.tMax
        | none => st.tMax
      match distance with
      | some d =>
          if d < 0 then none
          else some ⟨some d, Vec3.add ray.origin (Vec3.smul d ray.direction)⟩
      | none => some ⟨none, ray.origin⟩

/-- A registered collision object (`CollisionObject`). -/
structure HObj where
  mesh : Mesh
  obb : OBB
  shapeType : ShapeKind

/-- `d ≤ e` on hit distances with `none` as `+Infinity` (in JavaScript
`Infinity <= Infinity` holds). -/
def distLE : Option ℝ → Option ℝ → Prop
  | some a, some c => a ≤ c
  | some _, none => True
  | none, some _ => False
  | none, none => True

instance distLE.dec : (a c : Option ℝ) → Decidable (distLE a c)
  | some a, some c => inferInstanceAs (Decidable (a ≤ c))
  | some _, none => inferInstanceAs (Decidable True)
  | none, some _ => inferInstanceAs (Decidable False)
  | none, none => inferInstanceAs (Decidable True)

/-- `d < e` on hit distances with `none` as `+Infinity`. -/
def distLT : Option ℝ → Option ℝ → Prop
  | some a, some c => a < c
  | some _, none => True
  | none, some _ => False
  | none, none => False

instance distLT.dec : (a c : Option ℝ) → Decidable (distLT a c)
  | some a, some c => inferInstanceAs (Decidable (a < c))
  | some _, none => inferInstanceAs (Decidable True)
  | none, some _ => inferInstanceAs (Decidable False)
  | none, none => inferInstanceAs (Decidable False)

/-- The result record of `HybridCollisionSystem.raycast`:
`{object, distance, point}` with the registered identifier kept
alongside the object. -/
structure RaycastHit where
  objId : String
  obj : HObj
  distance : Option ℝ
  point : Vec3

/-- The `forEach` accumulation of `HybridCollisionSystem.raycast`:
keep the first hit within `maxDistance`, replacing it whenever a
strictly closer qualifying hit appears. -/
def raycastLoop (ray : Ray) (maxDistance : Option ℝ) :
    List (String × HObj) → Option RaycastHit → Option RaycastHit
  | [], closest => closest
  | (i, o) :: rest, closest =>
      match o.obb.intersectsRay ray with
      | none => raycastLoop ray maxDistance rest closest
      | some h =>
          if distLE h.distance maxDistance then
            match closest with
            | none => raycastLoop ray maxDistance rest (some ⟨i, o, h.distance, h.point⟩)
            | some c =>
                if distLT h.distance c.distance then
                  raycastLoop ray maxDistance rest (some ⟨i, o, h.distance, h.point⟩)
                else raycastLoop ray maxDistance rest (some c)
          else raycastLoop ray maxDistance rest closest

/-- `HybridCollisionSystem.raycast`: linear scan over the registered
objects in insertion order. -/
def raycast (objects : List (String × HObj)) (ray : Ray) (maxDistance : Option ℝ) :
    Option RaycastHit :=
  raycastLoop ray maxDistance objects none

/-- The claimed behavior of `raycast`: `none` exactly when no
registered box has a hit within `maxDistance`, and any returned hit
comes from a registered box, is within `maxDistance`, and has minimal
distance among all qualifying hits. -/
def raycastConclusion (objects : List (String × HObj)) (ray : Ray)
    (maxDistance : Option ℝ) : Prop :=
  (raycast objects ray maxDistance = none ↔
    ∀ io ∈ objects, ∀ h : RayHit, io.2.obb.intersectsRay ray = some h →
      ¬ distLE h.distance maxDistance) ∧
  ∀ c : RaycastHit, raycast objects ray maxDistance = some c →
    (∃ io ∈ objects, c.objId = io.1 ∧ c.obj = io.2 ∧
      io.2.obb.intersectsRay ray = some ⟨c.distance, c.point⟩) ∧
    distLE c.distance maxDistance ∧
    ∀ io ∈ objects, ∀ h : RayHit, io.2.obb.intersectsRay ray = some h →
      distLE h.distance maxDistance → distLE c.distance h.distance

/-- The ray of the specification's raycast scenario: origin
`(-5, 0, 0)`, direction `(1, 0, 0)`. -/
def rayScenario : Ray := ⟨⟨-5, 0, 0⟩, ⟨1, 0, 0⟩⟩

/-- A mesh whose derived box is the unit cube at the origin. -/
def meshTrivial : Mesh := ⟨Vec3.zero, Mat3.id, ⟨1, 1, 1⟩, Vec3.zero, ⟨1, 1, 1⟩⟩

/-- The registered object of the raycast scenario. -/
def scenarioObj : HObj := ⟨meshTrivial, boxUnitAtOrigin, ShapeKind.box⟩

/-! Collision resolution. -/

/-- Shift the mesh position of the entries registered under an id. -/
def setPos (p : List (String × HObj)) (i : String) (f : Vec3 → Vec3) : List (String × HObj) :=
  p.map fun e =>
    if e.1 = i then (e.1, { e.2 with mesh := { e.2.mesh with position := f e.2.mesh.position } })
    else e

/-- `OBB.updateFromMesh` on the entries registered under an id: replace
the stored OBB by the one recomputed from the entry's mesh. -/
def refreshOBB (p : List (String × HObj)) (i : String) : List (String × HObj) :=
  p.map fun e => if e.1 = i then (e.1, { e.2 with obb := OBB.fromMesh e.2.mesh }) else e

/-- `HybridCollisionSystem.resolveCollision`: separation vector from
the record's separating axis scaled by depth and strength, applied to
the two meshes with the equal-default-mass ratios, then both OBBs
refreshed from their meshes. -/
def resolveCollision (p : List (String × HObj)) (id1 id2 : String)
    (r : OBBCollisionResult) (strength : ℝ) : List (String × HObj) :=
  let mass1 : ℝ := 1
  let mass2 : ℝ := 1
  let totalMass := mass1 + mass2
  let separationVector := Vec3.smul (r.penetrationDepth * strength) r.separatingAxis
  let ratio1 := mass2 / totalMass
  let ratio2 := mass1 / totalMass
  refreshOBB (refreshOBB (setPos (setPos p id1
      (fun pos => Vec3.sub pos (Vec3.smul ratio1 separationVector))) id2
      (fun pos => Vec3.add pos (Vec3.smul ratio2 separationVector))) id1) id2

/-! The 2D broad phase (`AkashicCollisionSystem`), parametric over the
number type. -/

/-- A broad-phase rectangle (`AABB` in `AkashicCollisionSystem.ts`). -/
structure AABB (α : Type) where
  x : α
  y : α
  width : α
  height : α

/-- The overlap rectangle of a broad-phase collision. -/
structure Overlap (α : Type) where
  x : α
  y : α
  width : α
  height : α

/-- A broad-phase collision record (`CollisionResult`). -/
structure CollisionResult (α : Type) where
  id1 : String
  id2 : String
  body1 : AABB α
  body2 : AABB α
  overlap : Overlap α

/-- `AkashicCollisionSystem.checkAABBCollision`: clamped overlap on
both axes, returning the overlap rectangle when both are strictly
positive. -/
def checkAABBCollision {α : Type} [LinearOrderedField α] (aabb1 aabb2 : AABB α) :
    Option (Overlap α) :=
  let overlapX := max 0 (min (aabb1.x + aabb1.width) (aabb2.x + aabb2.width) - max aabb1.x aabb2.x)
  let overlapY :=
    max 0 (min (aabb1.y + aabb1.height) (aabb2.y + aabb2.height) - max aabb1.y aabb2.y)
  if 0 < overlapX ∧ 0 < overlapY then
    some ⟨max aabb1.x aabb2.x, max aabb1.y aabb2.y, overlapX, overlapY⟩
  else none

/-- The inner loop of `checkCollisions`: test one body against every
later body, in order. -/
def collectPairs {α : Type} [LinearOrderedField α] (b : String × AABB α) :
    List (String × AABB α) → List (CollisionResult α)
  | [] => []
  | b2 :: rest =>
      (match checkAABBCollision b.2 b2.2 with
       | some ov => [⟨b.1, b2.1, b.2, b2.2, ov⟩]
       | none => []) ++ collectPairs b rest

/-- `AkashicCollisionSystem.checkCollisions`: all index pairs `i < j`
in registration order. -/
def checkCollisions {α : Type} [LinearOrderedField α] :
    List (String × AABB α) → List (CollisionResult α)
  | [] => []
  | b :: rest => collectPairs b rest ++ checkCollisions rest

/-! Registration in the hybrid pipeline. -/

/-- JavaScript `Map.set` on an insertion-ordered association list:
replace in place when the key is present, append otherwise. -/
def mapSet {β : Type} (l : List (String × β)) (k : String) (v : β) : List (String × β) :=
  if l.any (fun e => decide (e.1 = k)) then l.map (fun e => if e.1 = k then (k, v) else e)
  else l ++ [(k, v)]

/-- JavaScript `Map.get`: the first entry registered under a key. -/
def mapGet {β : Type} : List (String × β) → String → Option β
  | [], _ => none
  | e :: rest, k => if e.1 = k then some e.2 else mapGet rest k

/-- `Box3.setFromObject`: center of the mesh's world bounding box. -/
def Mesh.worldAABBCenter (m : Mesh) : Vec3 :=
  Vec3.add (Mat3.apply m.linear m.geomCenter) m.position

/-- `Box3.setFromObject`: half-size of the mesh's world bounding box,
the componentwise absolute contributions of the linear part applied to
the geometry half-size. -/
def Mesh.worldAABBHalf (m : Mesh) : Vec3 :=
  ⟨|m.linear.colX.x| * m.geomHalf.x + |m.linear.colY.x| * m.geomHalf.y +
      |m.linear.colZ.x| * m.geomHalf.z,
   |m.linear.colX.y| * m.geomHalf.x + |m.linear.colY.y| * m.geomHalf.y +
      |m.linear.colZ.y| * m.geomHalf.z,
   |m.linear.colX.z| * m.geomHalf.x + |m.linear.colY.z| * m.geomHalf.y +
      |m.linear.colZ.z| * m.geomHalf.z⟩

/-- The state of `HybridCollisionSystem`: the object registry and the
broad-phase body registry, both insertion-ordered and string-keyed. -/
structure HState where
  objects : List (String × HObj)
  bodies : List (String × AABB ℝ)

/-- `AkashicCollisionSystem.createAABB`. -/
def createAABB (bodies : List (String × AABB ℝ)) (id : String) (x y width height : ℝ) :
    List (String × AABB ℝ) :=
  mapSet bodies id ⟨x, y, width, height⟩

/-- `HybridCollisionSystem.addObject`: build the OBB from the mesh,
store the collision object under the id, then store the 2D footprint
(XZ plane) of the world bounding box under the same id. -/
def addObject (st : HState) (id : String) (mesh : Mesh) (shapeType : ShapeKind) : HState :=
  let obb := OBB.fromMesh mesh
  let center := mesh.worldAABBCenter
  let size := Vec3.smul 2 mesh.worldAABBHalf
  { objects := mapSet st.objects id ⟨mesh, obb, shapeType⟩
    bodies := createAABB st.bodies id (center.x - size.x / 2) (center.z - size.z / 2)
      size.x size.z }

/-- A mesh like `meshTrivial` but positioned at `(2, 0, 0)`. -/
def meshShifted : Mesh := ⟨⟨2, 0, 0⟩, Mat3.id, ⟨1, 1, 1⟩, Vec3.zero, ⟨1, 1, 1⟩⟩

/-- A mesh with its position shifted back by a vector. -/
def meshShiftSub (m : Mesh) (d : Vec3) : Mesh := { m with position := Vec3.sub m.position d }

/-- A mesh with its position shifted forward by a vector. -/
def meshShiftAdd (m : Mesh) (d : Vec3) : Mesh := { m with position := Vec3.add m.position d }

/-- The per-entry effect claimed for `resolveCollision` with the
default equal masses: the first object's position shifts by
`-(1/2) * depth * strength` along the separating axis and its OBB is
recomputed from the shifted mesh, the second object shifts by the
opposite amount likewise, and every other entry is untouched. -/
def resolvedUpdate (id1 id2 : String) (r : OBBCollisionResult) (strength : ℝ)
    (e : String × HObj) : String × HObj :=
  let d := Vec3.smul (1 / 2 * (r.penetrationDepth * strength)) r.separatingAxis
  if e.1 = id1 then
    (e.1, { e.2 with mesh := meshShiftSub e.2.mesh d, obb := OBB.fromMesh (meshShiftSub e.2.mesh d) })
  else if e.1 = id2 then
    (e.1, { e.2 with mesh := meshShiftAdd e.2.mesh d, obb := OBB.fromMesh (meshShiftAdd e.2.mesh d) })
  else e

/-- The empty pipeline state. -/
def emptyHState : HState := ⟨[], []⟩

/-- A second registered object used by concrete witnesses. -/
def shiftedObj : HObj := ⟨meshShifted, boxUnitAtX 2, ShapeKind.box⟩

/-! The SAT loop characterization lemmas. -/

/-- The SAT loop reports no collision exactly when some tested axis of
its remaining candidate list yields a non-positive overlap, whatever
the accumulator holds. -/
theorem satLoop_false_iff (b other : OBB) (L : List Vec3) (acc : Option (ℝ × Vec3)) :
    (b.satLoop other L acc).isColliding = false ↔
      ∃ ax ∈ L, testedAxis ax ∧ b.axisOverlap other ax ≤ 0 := by
  induction L generalizing acc with
  | nil =>
      match acc with
      | none => simp [OBB.satLoop]
      | some (p, a) => simp [OBB.satLoop]
  | cons axis rest ih =>
      simp only [OBB.satLoop]
      by_cases hskip : Vec3.lengthSq axis < axEps
      · rw [if_pos hskip, ih]
        constructor
        · rintro ⟨ax, hmem, ht, hle⟩
          exact ⟨ax, List.mem_cons_of_mem _ hmem, ht, hle⟩
        · rintro ⟨ax, hmem, ht, hle⟩
          rcases List.mem_cons.mp hmem with rfl | hmem
          · exact absurd hskip ht
          · exact ⟨ax, hmem, ht, hle⟩
      · rw [if_neg hskip]
        by_cases hov : b.axisOverlap other axis ≤ 0
        · rw [if_pos hov]
          simp only [true_iff]
          exact ⟨axis, List.mem_cons_self _ _, hskip, hov⟩
        · rw [if_neg hov]
          have step : ∀ acc' : Option (ℝ × Vec3),
              ((b.satLoop other rest acc').isColliding = false ↔
                ∃ ax ∈ axis :: rest, testedAxis ax ∧ b.axisOverlap other ax ≤ 0) := by
            intro acc'
            rw [ih]
            constructor
            · rintro ⟨ax, hmem, ht, hle⟩
              exact ⟨ax, List.mem_cons_of_mem _ hmem, ht, hle⟩
            · rintro ⟨ax, hmem, ht, hle⟩
              rcases List.mem_cons.mp hmem with rfl | hmem
              · exact absurd hle hov
              · exact ⟨ax, hmem, ht, hle⟩
          rcases acc with _ | ⟨p, a⟩
          · exact step _
          · dsimp only
            by_cases hlt : b.axisOverlap other axis < p
            · rw [if_pos hlt]; exact step _
            · rw [if_neg hlt]; exact step _

/-- Running the SAT loop from a `some` accumulator when every tested
remaining axis has positive overlap: the loop reports a collision and
its reported depth is the minimum of the accumulator value and the
tested overlaps. -/
theorem satLoop_some_char (b other : OBB) (L : List Vec3) (p : ℝ) (a : Vec3)
    (hpos : ∀ ax ∈ L, testedAxis ax → 0 < b.axisOverlap other ax) :
    (b.satLoop other L (some (p, a))).isColliding = true ∧
    ((b.satLoop other L (some (p, a))).penetrationDepth = p ∨
      ∃ ax ∈ L, testedAxis ax ∧
        (b.satLoop other L (some (p, a))).penetrationDepth = b.axisOverlap other ax) ∧
    (b.satLoop other L (some (p, a))).penetrationDepth ≤ p ∧
    ∀ ax ∈ L, testedAxis ax →
      (b.satLoop other L (some (p, a))).penetrationDepth ≤ b.axisOverlap other ax := by
  induction L generalizing p a with
  | nil => simp [OBB.satLoop]
  | cons axis rest ih =>
      simp only [OBB.satLoop]
      by_cases hskip : Vec3.lengthSq axis < axEps
      · rw [if_pos hskip]
        obtain ⟨h1, h2, h3, h4⟩ :=
          ih p a (fun ax hm ht => hpos ax (List.mem_cons_of_mem _ hm) ht)
        refine ⟨h1, ?_, h3, ?_⟩
        · rcases h2 with h | ⟨ax, hm, ht, he⟩
          · exact Or.inl h
          · exact Or.inr ⟨ax, List.mem_cons_of_mem _ hm, ht, he⟩
        · intro ax hm ht
          rcases List.mem_cons.mp hm with rfl | hm
          · exact absurd hskip ht
          · exact h4 ax hm ht
      · rw [if_neg hskip]
        have hpos0 : 0 < b.axisOverlap other axis :=
          hpos axis (List.mem_cons_self _ _) hskip
        rw [if_neg (not_le.mpr hpos0)]
        have hrest : ∀ ax ∈ rest, testedAxis ax → 0 < b.axisOverlap other ax :=
          fun ax hm ht => hpos ax (List.mem_cons_of_mem _ hm) ht
        by_cases hlt : b.axisOverlap other axis < p
        · rw [if_pos hlt]
          obtain ⟨h1, h2, h3, h4⟩ :=
            ih (b.axisOverlap other axis) (Vec3.normalize axis) hrest
          refine ⟨h1, ?_, le_trans h3 hlt.le, ?_⟩
          · rcases h2 with h | ⟨ax, hm, ht, he⟩
            · exact Or.inr ⟨axis, List.mem_cons_self _ _, hskip, h⟩
            · exact Or.inr ⟨ax, List.mem_cons_of_mem _ hm, ht, he⟩
          · intro ax hm ht
            rcases List.mem_cons.mp hm with rfl | hm
            · exact h3
            · exact h4 ax hm ht
        · rw [if_neg hlt]
          obtain ⟨h1, h2, h3, h4⟩ := ih p a hrest
          refine ⟨h1, ?_, h3, ?_⟩
          · rcases h2 with h | ⟨ax, hm, ht, he⟩
            · exact Or.inl h
            · exact Or.inr ⟨ax, List.mem_cons_of_mem _ hm, ht, he⟩
          · intro ax hm ht
            rcases List.mem_cons.mp hm with rfl | hm
            · exact le_trans h3 (not_lt.mp hlt)
            · exact h4 ax hm ht

/-- Running the SAT loop from the initial `Infinity` accumulator when
every tested axis has positive overlap and at least one axis is
tested: the loop reports a collision whose depth is the minimum of the
tested overlaps. -/
theorem satLoop_none_char (b other : OBB) (L : List Vec3)
    (hpos : ∀ ax ∈ L, testedAxis ax → 0 < b.axisOverlap other ax)
    (hex : ∃ ax ∈ L, testedAxis ax) :
    (b.satLoop other L none).isColliding = true ∧
    (∃ ax ∈ L, testedAxis ax ∧
      (b.satLoop other L none).penetrationDepth = b.axisOverlap other ax) ∧
    ∀ ax ∈ L, testedAxis ax →
      (b.satLoop other L none).penetrationDepth ≤ b.axisOverlap other ax := by
  induction L with
  | nil => simp at hex
  | cons axis rest ih =>
      simp only [OBB.satLoop]
      by_cases hskip : Vec3.lengthSq axis < axEps
      · rw [if_pos hskip]
        have hex' : ∃ ax ∈ rest, testedAxis ax := by
          rcases hex with ⟨ax, hm, ht⟩
          rcases List.mem_cons.mp hm with rfl | hm
          · exact absurd hskip ht
          · exact ⟨ax, hm, ht⟩
        obtain ⟨h1, h2, h3⟩ :=
          ih (fun ax hm ht => hpos ax (List.mem_cons_of_mem _ hm) ht) hex'
        refine ⟨h1, ?_, ?_⟩
        · rcases h2 with ⟨ax, hm, ht, he⟩
          exact ⟨ax, List.mem_cons_of_mem _ hm, ht, he⟩
        · intro ax hm ht
          rcases List.mem_cons.mp hm with rfl | hm
          · exact absurd hskip ht
          · exact h3 ax hm ht
      · rw [if_neg hskip]
        have hpos0 : 0 < b.axisOverlap other axis :=
          hpos axis (List.mem_cons_self _ _) hskip
        rw [if_neg (not_le.mpr hpos0)]
        obtain ⟨h1, h2, h3, h4⟩ :=
          satLoop_some_char b other rest (b.axisOverlap other axis) (Vec3.normalize axis)
            (fun ax hm ht => hpos ax (List.mem_cons_of_mem _ hm) ht)
        refine ⟨h1, ?_, ?_⟩
        · rcases h2 with h | ⟨ax, hm, ht, he⟩
          · exact ⟨axis, List.mem_cons_self _ _, hskip, h⟩
          · exact ⟨ax, List.mem_cons_of_mem _ hm, ht, he⟩
        · intro ax hm ht
          rcases List.mem_cons.mp hm with rfl | hm
          · exact h3
          · exact h4 ax hm ht

/-! Basic vector and axis facts. -/

/-- Dot product is commutative. -/
theorem Vec3.dot_comm (u v : Vec3) : u.dot v = v.dot u := by
  simp only [Vec3.dot]; ring

/-- The first box axis is the first orientation column. -/
theorem OBB.axisX_eq (b : OBB) : b.axisX = b.orientation.colX := by
  ext <;> simp [OBB.axisX, Mat3.apply, Vec3.add, Vec3.smul]

/-- The second box axis is the second orientation column. -/
theorem OBB.axisY_eq (b : OBB) : b.axisY = b.orientation.colY := by
  ext <;> simp [OBB.axisY, Mat3.apply, Vec3.add, Vec3.smul]

/-- The third box axis is the third orientation column. -/
theorem OBB.axisZ_eq (b : OBB) : b.axisZ = b.orientation.colZ := by
  ext <;> simp [OBB.axisZ, Mat3.apply, Vec3.add, Vec3.smul]

/-- Axes of an orthonormally oriented box are unit vectors. -/
theorem OBB.lengthSq_axisX (b : OBB) (h : b.orientation.Orthonormal) :
    b.axisX.lengthSq = 1 := by rw [OBB.axisX_eq]; exact h.1

/-- Axes of an orthonormally oriented box are unit vectors. -/
theorem OBB.lengthSq_axisY (b : OBB) (h : b.orientation.Orthonormal) :
    b.axisY.lengthSq = 1 := by rw [OBB.axisY_eq]; exact h.2.1

/-- Axes of an orthonormally oriented box are unit vectors. -/
theorem OBB.lengthSq_axisZ (b : OBB) (h : b.orientation.Orthonormal) :
    b.axisZ.lengthSq = 1 := by rw [OBB.axisZ_eq]; exact h.2.2.1

/-- A unit axis is never skipped by the SAT loop. -/
theorem testedAxis_of_unit (v : Vec3) (h : v.lengthSq = 1) : testedAxis v := by
  simp only [testedAxis, h, axEps]; norm_num

/-- Normalizing a unit vector is the identity. -/
theorem Vec3.normalize_of_unit (v : Vec3) (h : v.lengthSq = 1) : v.normalize = v := by
  have hl : v.length = 1 := by rw [Vec3.length, h, Real.sqrt_one]
  ext <;> simp [Vec3.normalize, hl, Vec3.smul]

/-- A box's own axes are in the candidate list of `intersects`. -/
theorem OBB.mem_candidates_left (b other : OBB) {ax : Vec3} (h : ax ∈ b.getAxes) :
    ax ∈ b.candidateAxes other :=
  List.mem_append_left _ (List.mem_append_left _ h)

/-- The other box's axes are in the candidate list of `intersects`. -/
theorem OBB.mem_candidates_right (b other : OBB) {ax : Vec3} (h : ax ∈ other.getAxes) :
    ax ∈ b.candidateAxes other :=
  List.mem_append_left _ (List.mem_append_right _ h)

/-- `axisX` is among a box's axes. -/
theorem OBB.axisX_mem_getAxes (b : OBB) : b.axisX ∈ b.getAxes := by simp [OBB.getAxes]

/-- `axisY` is among a box's axes. -/
theorem OBB.axisY_mem_getAxes (b : OBB) : b.axisY ∈ b.getAxes := by simp [OBB.getAxes]

/-- `axisZ` is among a box's axes. -/
theorem OBB.axisZ_mem_getAxes (b : OBB) : b.axisZ ∈ b.getAxes := by simp [OBB.getAxes]

/-! Projection widths along a box's own axes. -/

/-- The overlap on an axis is at most the width of the first box's
projection interval. -/
theorem OBB.overlapOn_le_width_left (b other : OBB) (n : Vec3) :
    b.overlapOn other n ≤ (b.projectOnAxis n).max - (b.projectOnAxis n).min :=
  sub_le_sub (min_le_left _ _) (le_max_left _ _)

/-- The overlap on an axis is at most the width of the second box's
projection interval. -/
theorem OBB.overlapOn_le_width_right (b other : OBB) (n : Vec3) :
    b.overlapOn other n ≤ (other.projectOnAxis n).max - (other.projectOnAxis n).min :=
  sub_le_sub (min_le_right _ _) (le_max_right _ _)

/-- For an orthonormal orientation, the projection of a box onto its own
first axis has width twice the absolute first half-extent. -/
theorem OBB.width_on_axisX (b : OBB) (hA : b.orientation.Orthonormal) :
    (b.projectOnAxis b.axisX).max - (b.projectOnAxis b.axisX).min = 2 * |b.halfExtents.x| := by
  have d11 : Vec3.dot b.orientation.colX b.orientation.colX = 1 := hA.1
  have d21 : Vec3.dot b.orientation.colY b.orientation.colX = 0 := by
    rw [Vec3.dot_comm]; exact hA.2.2.2.1
  have d31 : Vec3.dot b.orientation.colZ b.orientation.colX = 0 := by
    rw [Vec3.dot_comm]; exact hA.2.2.2.2.1
  simp only [OBB.projectOnAxis, OBB.axisX_eq, OBB.axisY_eq, OBB.axisZ_eq, d11, d21, d31,
    one_mul, zero_mul, abs_zero]
  ring

/-- For an orthonormal orientation, the projection of a box onto its own
second axis has width twice the absolute second half-extent. -/
theorem OBB.width_on_axisY (b : OBB) (hA : b.orientation.Orthonormal) :
    (b.projectOnAxis b.axisY).max - (b.projectOnAxis b.axisY).min = 2 * |b.halfExtents.y| := by
  have d22 : Vec3.dot b.orientation.colY b.orientation.colY = 1 := hA.2.1
  have d12 : Vec3.dot b.orientation.colX b.orientation.colY = 0 := hA.2.2.2.1
  have d32 : Vec3.dot b.orientation.colZ b.orientation.colY = 0 := by
    rw [Vec3.dot_comm]; exact hA.2.2.2.2.2
  simp only [OBB.projectOnAxis, OBB.axisX_eq, OBB.axisY_eq, OBB.axisZ_eq, d22, d12, d32,
    one_mul, zero_mul, abs_zero]
  ring

/-- For an orthonormal orientation, the projection of a box onto its own
third axis has width twice the absolute third half-extent. -/
theorem OBB.width_on_axisZ (b : OBB) (hA : b.orientation.Orthonormal) :
    (b.projectOnAxis b.axisZ).max - (b.projectOnAxis b.axisZ).min = 2 * |b.halfExtents.z| := by
  have d33 : Vec3.dot b.orientation.colZ b.orientation.colZ = 1 := hA.2.2.1
  have d13 : Vec3.dot b.orientation.colX b.orientation.colZ = 0 := hA.2.2.2.2.1
  have d23 : Vec3.dot b.orientation.colY b.orientation.colZ = 0 := hA.2.2.2.2.2
  simp only [OBB.projectOnAxis, OBB.axisX_eq, OBB.axisY_eq, OBB.axisZ_eq, d33, d13, d23,
    one_mul, zero_mul, abs_zero]
  ring

/-- The tested overlap on the first box's first axis is bounded by twice
its absolute first half-extent. -/
theorem OBB.axisOverlap_axisX_left (b other : OBB) (hA : b.orientation.Orthonormal) :
    b.axisOverlap other b.axisX ≤ 2 * |b.halfExtents.x| := by
  rw [OBB.axisOverlap, Vec3.normalize_of_unit _ (OBB.lengthSq_axisX b hA)]
  exact (OBB.overlapOn_le_width_left b other _).trans (le_of_eq (OBB.width_on_axisX b hA))

/-- The tested overlap on the first box's second axis is bounded by
twice its absolute second half-extent. -/
theorem OBB.axisOverlap_axisY_left (b other : OBB) (hA : b.orientation.Orthonormal) :
    b.axisOverlap other b.axisY ≤ 2 * |b.halfExtents.y| := by
  rw [OBB.axisOverlap, Vec3.normalize_of_unit _ (OBB.lengthSq_axisY b hA)]
  exact (OBB.overlapOn_le_width_left b other _).trans (le_of_eq (OBB.width_on_axisY b hA))

/-- The tested overlap on the first box's third axis is bounded by twice
its absolute third half-extent. -/
theorem OBB.axisOverlap_axisZ_left (b other : OBB) (hA : b.orientation.Orthonormal) :
    b.axisOverlap other b.axisZ ≤ 2 * |b.halfExtents.z| := by
  rw [OBB.axisOverlap, Vec3.normalize_of_unit _ (OBB.lengthSq_axisZ b hA)]
  exact (OBB.overlapOn_le_width_left b other _).trans (le_of_eq (OBB.width_on_axisZ b hA))

/-- The tested overlap on the second box's first axis is bounded by
twice its absolute first half-extent. -/
theorem OBB.axisOverlap_axisX_right (b other : OBB) (hB : other.orientation.Orthonormal) :
    b.axisOverlap other other.axisX ≤ 2 * |other.halfExtents.x| := by
  rw [OBB.axisOverlap, Vec3.normalize_of_unit _ (OBB.lengthSq_axisX other hB)]
  exact (OBB.overlapOn_le_width_right b other _).trans (le_of_eq (OBB.width_on_axisX other hB))

/-! Characterization of `OBB.intersects`. -/

/-- `intersects` reports no collision exactly when some tested candidate
axis has non-positive overlap (unconditionally). -/
theorem OBB.intersects_false_iff (b other : OBB) :
    (b.intersects other).isColliding = false ↔
      ∃ ax ∈ b.candidateAxes other, testedAxis ax ∧ b.axisOverlap other ax ≤ 0 :=
  satLoop_false_iff b other _ none

/-- When `intersects` on a box with orthonormal orientation reports a
collision, every tested overlap is positive and the reported depth is
their minimum. -/
theorem OBB.intersects_colliding_char (b other : OBB) (hA : b.orientation.Orthonormal)
    (hc : (b.intersects other).isColliding = true) :
    (∀ ax ∈ b.candidateAxes other, testedAxis ax → 0 < b.axisOverlap other ax) ∧
    (∃ ax ∈ b.candidateAxes other, testedAxis ax ∧
      (b.intersects other).penetrationDepth = b.axisOverlap other ax) ∧
    ∀ ax ∈ b.candidateAxes other, testedAxis ax →
      (b.intersects other).penetrationDepth ≤ b.axisOverlap other ax := by
  have hnot : ¬ ∃ ax ∈ b.candidateAxes other, testedAxis ax ∧ b.axisOverlap other ax ≤ 0 := by
    intro hP
    have hfalse := (OBB.intersects_false_iff b other).mpr hP
    rw [hc] at hfalse
    exact Bool.noConfusion hfalse
  have hpos : ∀ ax ∈ b.candidateAxes other, testedAxis ax → 0 < b.axisOverlap other ax := by
    intro ax hm ht
    by_contra hle
    exact hnot ⟨ax, hm, ht, le_of_not_lt hle⟩
  have hex : ∃ ax ∈ b.candidateAxes other, testedAxis ax :=
    ⟨b.axisX, OBB.mem_candidates_left b other (OBB.axisX_mem_getAxes b),
      testedAxis_of_unit _ (OBB.lengthSq_axisX b hA)⟩
  obtain ⟨h1, h2, h3⟩ := satLoop_none_char b other (b.candidateAxes other) hpos hex
  exact ⟨hpos, h2, h3⟩

/-- A non-colliding result always carries penetration depth `0`. -/
theorem satLoop_depth_of_false (b other : OBB) (L : List Vec3) (acc : Option (ℝ × Vec3))
    (h : (b.satLoop other L acc).isColliding = false) :
    (b.satLoop other L acc).penetrationDepth = 0 := by
  induction L generalizing acc with
  | nil =>
      rcases acc with _ | ⟨p, a⟩ <;> simp [OBB.satLoop] at h
  | cons axis rest ih =>
      simp only [OBB.satLoop] at h ⊢
      by_cases hskip : Vec3.lengthSq axis < axEps
      · rw [if_pos hskip] at h ⊢; exact ih _ h
      · rw [if_neg hskip] at h ⊢
        by_cases hov : b.axisOverlap other axis ≤ 0
        · rw [if_pos hov]
        · rw [if_neg hov] at h ⊢
          rcases acc with _ | ⟨p, a⟩
          · exact ih _ h
          · dsimp only at h ⊢
            by_cases hlt : b.axisOverlap other axis < p
            · rw [if_pos hlt] at h ⊢; exact ih _ h
            · rw [if_neg hlt] at h ⊢; exact ih _ h

/-- The identity matrix is orthonormal. -/
theorem Mat3.orthonormal_id : Mat3.id.Orthonormal := by
  refine ⟨?_, ?_, ?_, ?_, ?_, ?_⟩ <;> simp [Mat3.id, Vec3.lengthSq, Vec3.dot]

/-! Claims about the SAT test. -/

/-- C1: for boxes with orthonormal orientations, `intersects` returns
`isColliding = false` exactly when some tested axis of the candidate
set (the boxes' axes and the filtered pairwise cross products, each
normalized before projecting) yields a non-positive projection
overlap, and when it returns `isColliding = true` the reported
`penetrationDepth` is the minimum of the (strictly positive) overlaps
over all tested axes. -/
theorem satC1 (b other : OBB) (hA : b.orientation.Orthonormal)
    (hB : other.orientation.Orthonormal) : satConclusion b other :=
  ⟨OBB.intersects_false_iff b other, fun hc => OBB.intersects_colliding_char b other hA hc⟩

/-- Witness for C1 at two concrete axis-aligned unit cubes. -/
theorem satC1_witness :
    Mat3.id.Orthonormal ∧ satConclusion boxUnitAtOrigin (boxUnitAtX (3 / 2)) :=
  ⟨Mat3.orthonormal_id, satC1 boxUnitAtOrigin (boxUnitAtX (3 / 2))
    Mat3.orthonormal_id Mat3.orthonormal_id⟩

/-- C4: a box with a zero half-extent and orthonormal orientation never
reports a collision: its projection on the corresponding own axis is a
single point, so that axis's overlap is never strictly positive. -/
theorem satC4 (b other : OBB) (hA : b.orientation.Orthonormal)
    (hB : other.orientation.Orthonormal)
    (h0 : b.halfExtents.x = 0 ∨ b.halfExtents.y = 0 ∨ b.halfExtents.z = 0) :
    (b.intersects other).isColliding = false := by
  rw [OBB.intersects_false_iff]
  rcases h0 with h | h | h
  · exact ⟨b.axisX, OBB.mem_candidates_left b other (OBB.axisX_mem_getAxes b),
      testedAxis_of_unit _ (OBB.lengthSq_axisX b hA),
      (OBB.axisOverlap_axisX_left b other hA).trans (by rw [h]; norm_num)⟩
  · exact ⟨b.axisY, OBB.mem_candidates_left b other (OBB.axisY_mem_getAxes b),
      testedAxis_of_unit _ (OBB.lengthSq_axisY b hA),
      (OBB.axisOverlap_axisY_left b other hA).trans (by rw [h]; norm_num)⟩
  · exact ⟨b.axisZ, OBB.mem_candidates_left b other (OBB.axisZ_mem_getAxes b),
      testedAxis_of_unit _ (OBB.lengthSq_axisZ b hA),
      (OBB.axisOverlap_axisZ_left b other hA).trans (by rw [h]; norm_num)⟩

/-- Witness for C4: a zero-width box against the unit cube. -/
theorem satC4_witness :
    Mat3.id.Orthonormal ∧
    (OBB.intersects ⟨Vec3.zero, ⟨0, 1, 1⟩, Mat3.id⟩ boxUnitAtOrigin).isColliding = false :=
  ⟨Mat3.orthonormal_id, satC4 ⟨Vec3.zero, ⟨0, 1, 1⟩, Mat3.id⟩ boxUnitAtOrigin
    Mat3.orthonormal_id Mat3.orthonormal_id (Or.inl rfl)⟩

/-- C5: for orthonormally oriented boxes with non-negative half-extents
the reported penetration depth is never negative: it is `0` when not
colliding, and when colliding it is strictly positive and bounded by
twice the largest half-extent of each box (hence of the smaller one). -/
theorem satC5 (b other : OBB) (hA : b.orientation.Orthonormal)
    (hB : other.orientation.Orthonormal)
    (hb : 0 ≤ b.halfExtents.x ∧ 0 ≤ b.halfExtents.y ∧ 0 ≤ b.halfExtents.z)
    (ho : 0 ≤ other.halfExtents.x ∧ 0 ≤ other.halfExtents.y ∧ 0 ≤ other.halfExtents.z) :
    0 ≤ (b.intersects other).penetrationDepth ∧
    ((b.intersects other).isColliding = false → (b.intersects other).penetrationDepth = 0) ∧
    ((b.intersects other).isColliding = true →
      0 < (b.intersects other).penetrationDepth ∧
      (b.intersects other).penetrationDepth ≤ 2 * b.maxHalfExtent ∧
      (b.intersects other).penetrationDepth ≤ 2 * other.maxHalfExtent) := by
  rcases hcol : (b.intersects other).isColliding with _ | _
  · have hz := satLoop_depth_of_false b other (b.candidateAxes other) none hcol
    exact ⟨le_of_eq hz.symm, fun _ => hz, fun h => Bool.noConfusion h⟩
  · obtain ⟨hpos, ⟨ax, hm, ht, heq⟩, hmin⟩ := OBB.intersects_colliding_char b other hA hcol
    have hdpos : 0 < (b.intersects other).penetrationDepth := heq ▸ hpos ax hm ht
    have hbx : (b.intersects other).penetrationDepth ≤ 2 * b.halfExtents.x := by
      have hx := (hmin b.axisX (OBB.mem_candidates_left b other (OBB.axisX_mem_getAxes b))
        (testedAxis_of_unit _ (OBB.lengthSq_axisX b hA))).trans
        (OBB.axisOverlap_axisX_left b other hA)
      rwa [abs_of_nonneg hb.1] at hx
    have hox : (b.intersects other).penetrationDepth ≤ 2 * other.halfExtents.x := by
      have hx := (hmin other.axisX (OBB.mem_candidates_right b other (OBB.axisX_mem_getAxes other))
        (testedAxis_of_unit _ (OBB.lengthSq_axisX other hB))).trans
        (OBB.axisOverlap_axisX_right b other hB)
      rwa [abs_of_nonneg ho.1] at hx
    refine ⟨hdpos.le, fun h => Bool.noConfusion h, fun _ => ⟨hdpos, ?_, ?_⟩⟩
    · exact hbx.trans (by have := le_max_left b.halfExtents.x (max b.halfExtents.y b.halfExtents.z)
                          rw [OBB.maxHalfExtent]; linarith)
    · exact hox.trans (by have := le_max_left other.halfExtents.x
                            (max other.halfExtents.y other.halfExtents.z)
                          rw [OBB.maxHalfExtent]; linarith)

/-- Witness for C5 at two concrete overlapping unit cubes. -/
theorem satC5_witness :
    Mat3.id.Orthonormal ∧ (0 ≤ (1 : ℝ) ∧ 0 ≤ (1 : ℝ) ∧ 0 ≤ (1 : ℝ)) ∧
    (0 ≤ (boxUnitAtOrigin.intersects (boxUnitAtX (3 / 2))).penetrationDepth ∧
      ((boxUnitAtOrigin.intersects (boxUnitAtX (3 / 2))).isColliding = false →
        (boxUnitAtOrigin.intersects (boxUnitAtX (3 / 2))).penetrationDepth = 0) ∧
      ((boxUnitAtOrigin.intersects (boxUnitAtX (3 / 2))).isColliding = true →
        0 < (boxUnitAtOrigin.intersects (boxUnitAtX (3 / 2))).penetrationDepth ∧
        (boxUnitAtOrigin.intersects (boxUnitAtX (3 / 2))).penetrationDepth ≤
          2 * boxUnitAtOrigin.maxHalfExtent ∧
        (boxUnitAtOrigin.intersects (boxUnitAtX (3 / 2))).penetrationDepth ≤
          2 * (boxUnitAtX (3 / 2)).maxHalfExtent)) :=
  ⟨Mat3.orthonormal_id, ⟨zero_le_one, zero_le_one, zero_le_one⟩,
    satC5 boxUnitAtOrigin (boxUnitAtX (3 / 2)) Mat3.orthonormal_id Mat3.orthonormal_id
      ⟨zero_le_one, zero_le_one, zero_le_one⟩ ⟨zero_le_one, zero_le_one, zero_le_one⟩⟩

/-! Symmetry of the SAT test. -/

/-- Cross product anticommutes. -/
theorem Vec3.cross_anticomm (u v : Vec3) : Vec3.cross v u = Vec3.neg (Vec3.cross u v) := by
  ext <;> simp [Vec3.cross, Vec3.neg] <;> ring

/-- Negation preserves the squared length. -/
theorem Vec3.lengthSq_neg (u : Vec3) : (Vec3.neg u).lengthSq = u.lengthSq := by
  simp only [Vec3.lengthSq, Vec3.dot, Vec3.neg]; ring

/-- Negation preserves the length. -/
theorem Vec3.length_neg (u : Vec3) : (Vec3.neg u).length = u.length := by
  rw [Vec3.length, Vec3.length, Vec3.lengthSq_neg]

/-- Normalization commutes with negation. -/
theorem Vec3.normalize_neg (u : Vec3) : (Vec3.neg u).normalize = Vec3.neg u.normalize := by
  rw [Vec3.normalize, Vec3.normalize, Vec3.length_neg]
  ext <;> simp only [Vec3.smul, Vec3.neg] <;> ring

/-- Dot product with a negated right argument. -/
theorem Vec3.dot_neg_right (u v : Vec3) : u.dot (Vec3.neg v) = -(u.dot v) := by
  simp only [Vec3.dot, Vec3.neg]; ring

/-- Projecting on the negated axis mirrors the interval. -/
theorem OBB.projectOnAxis_neg (b : OBB) (n : Vec3) :
    b.projectOnAxis (Vec3.neg n) =
      ⟨-(b.projectOnAxis n).max, -(b.projectOnAxis n).min⟩ := by
  ext <;> simp only [OBB.projectOnAxis, Vec3.dot_neg_right, neg_mul, abs_neg] <;> ring

/-- The projection overlap is invariant under axis negation. -/
theorem OBB.overlapOn_neg (b other : OBB) (n : Vec3) :
    b.overlapOn other (Vec3.neg n) = b.overlapOn other n := by
  rw [OBB.overlapOn, OBB.overlapOn, OBB.projectOnAxis_neg, OBB.projectOnAxis_neg]
  dsimp only
  rw [min_neg_neg, max_neg_neg]
  ring

/-- The projection overlap is symmetric in the two boxes. -/
theorem OBB.overlapOn_comm (b other : OBB) (n : Vec3) :
    b.overlapOn other n = other.overlapOn b n := by
  rw [OBB.overlapOn, OBB.overlapOn, min_comm, max_comm]

/-- The tested overlap is symmetric in the two boxes. -/
theorem OBB.axisOverlap_comm (b other : OBB) (ax : Vec3) :
    b.axisOverlap other ax = other.axisOverlap b ax :=
  OBB.overlapOn_comm b other _

/-- The tested overlap is invariant under axis negation. -/
theorem OBB.axisOverlap_neg (b other : OBB) (ax : Vec3) :
    b.axisOverlap other (Vec3.neg ax) = b.axisOverlap other ax := by
  rw [OBB.axisOverlap, OBB.axisOverlap, Vec3.normalize_neg, OBB.overlapOn_neg]

/-- Membership in one cross row of `getCrossProductAxes`. -/
theorem mem_crossRow_iff (u w : Vec3) (vs : List Vec3) :
    w ∈ crossRow u vs ↔ ∃ v ∈ vs, w = Vec3.cross u v ∧ axEps < Vec3.lengthSq w := by
  induction vs with
  | nil => simp [crossRow]
  | cons v vs ih =>
      by_cases hc : axEps < Vec3.lengthSq (Vec3.cross u v)
      · simp only [crossRow, if_pos hc, List.cons_append, List.nil_append, List.mem_cons, ih]
        constructor
        · rintro (rfl | ⟨v2, hv2, rfl, hl⟩)
          · exact ⟨v, Or.inl rfl, rfl, hc⟩
          · exact ⟨v2, Or.inr hv2, rfl, hl⟩
        · rintro ⟨v2, hv2, rfl, hl⟩
          rcases hv2 with rfl | hv2
          · exact Or.inl rfl
          · exact Or.inr ⟨v2, hv2, rfl, hl⟩
      · simp only [crossRow, if_neg hc, List.nil_append, ih]
        constructor
        · rintro ⟨v2, hv2, rfl, hl⟩
          exact ⟨v2, List.mem_cons_of_mem _ hv2, rfl, hl⟩
        · rintro ⟨v2, hv2, rfl, hl⟩
          rcases List.mem_cons.mp hv2 with rfl | hv2
          · exact absurd hl hc
          · exact ⟨v2, hv2, rfl, hl⟩

/-- Membership in the filtered cross-product axis list. -/
theorem mem_getCrossProductAxes_iff (us vs : List Vec3) (w : Vec3) :
    w ∈ getCrossProductAxes us vs ↔
      ∃ u ∈ us, ∃ v ∈ vs, w = Vec3.cross u v ∧ axEps < Vec3.lengthSq w := by
  induction us with
  | nil => simp [getCrossProductAxes]
  | cons u us ih =>
      simp only [getCrossProductAxes, List.mem_append, ih, mem_crossRow_iff]
      constructor
      · rintro (⟨v, hv, rfl, hl⟩ | ⟨u2, hu2, v, hv, rfl, hl⟩)
        · exact ⟨u, List.mem_cons_self _ _, v, hv, rfl, hl⟩
        · exact ⟨u2, List.mem_cons_of_mem _ hu2, v, hv, rfl, hl⟩
      · rintro ⟨u2, hu2, v, hv, rfl, hl⟩
        rcases List.mem_cons.mp hu2 with rfl | hu2
        · exact Or.inl ⟨v, hv, rfl, hl⟩
        · exact Or.inr ⟨u2, hu2, v, hv, rfl, hl⟩

/-- Cross-product axes are candidate axes. -/
theorem OBB.mem_candidates_cross (b other : OBB) {w : Vec3}
    (h : w ∈ getCrossProductAxes b.getAxes other.getAxes) : w ∈ b.candidateAxes other :=
  List.mem_append_right _ h

/-- Every candidate axis of `A.intersects(B)` has a mirror candidate
axis of `B.intersects(A)` with the same squared length and the same
tested overlap. -/
theorem OBB.candidate_transfer (b other : OBB) (ax : Vec3) (h : ax ∈ b.candidateAxes other) :
    ∃ ax2 ∈ other.candidateAxes b,
      Vec3.lengthSq ax2 = Vec3.lengthSq ax ∧
      other.axisOverlap b ax2 = b.axisOverlap other ax := by
  rcases List.mem_append.mp h with h6 | hcross
  · rcases List.mem_append.mp h6 with hA | hB
    · exact ⟨ax, OBB.mem_candidates_right other b hA, rfl, (OBB.axisOverlap_comm b other ax).symm⟩
    · exact ⟨ax, OBB.mem_candidates_left other b hB, rfl, (OBB.axisOverlap_comm b other ax).symm⟩
  · obtain ⟨u, hu, v, hv, rfl, hl⟩ := (mem_getCrossProductAxes_iff _ _ _).mp hcross
    have hlen : Vec3.lengthSq (Vec3.cross v u) = Vec3.lengthSq (Vec3.cross u v) := by
      rw [Vec3.cross_anticomm, Vec3.lengthSq_neg]
    refine ⟨Vec3.cross v u, OBB.mem_candidates_cross other b
      ((mem_getCrossProductAxes_iff _ _ _).mpr ⟨v, hv, u, hu, rfl, by rwa [hlen]⟩), hlen, ?_⟩
    rw [Vec3.cross_anticomm, OBB.axisOverlap_neg, OBB.axisOverlap_comm]

/-- C3: the SAT test is symmetric for orthonormally oriented boxes:
both orders agree on `isColliding`, and when both report a collision
the penetration depths agree. -/
theorem satC3 (b other : OBB) (hA : b.orientation.Orthonormal)
    (hB : other.orientation.Orthonormal) : symConclusion b other := by
  have hiff : (b.intersects other).isColliding = false ↔
      (other.intersects b).isColliding = false := by
    rw [OBB.intersects_false_iff, OBB.intersects_false_iff]
    constructor
    · rintro ⟨ax, hm, ht, hle⟩
      obtain ⟨ax2, hm2, hls, hov⟩ := OBB.candidate_transfer b other ax hm
      refine ⟨ax2, hm2, ?_, by rw [hov]; exact hle⟩
      simp only [testedAxis, hls]; exact ht
    · rintro ⟨ax, hm, ht, hle⟩
      obtain ⟨ax2, hm2, hls, hov⟩ := OBB.candidate_transfer other b ax hm
      refine ⟨ax2, hm2, ?_, by rw [hov]; exact hle⟩
      simp only [testedAxis, hls]; exact ht
  constructor
  · cases hb1 : (b.intersects other).isColliding <;>
      cases hb2 : (other.intersects b).isColliding
    · rfl
    · exact absurd (hiff.mp hb1) (by simp [hb2])
    · exact absurd (hiff.mpr hb2) (by simp [hb1])
    · rfl
  · intro h1 h2
    obtain ⟨hpos1, ⟨ax, hm, ht, heq⟩, hmin1⟩ := OBB.intersects_colliding_char b other hA h1
    obtain ⟨hpos2, ⟨ay, hmy, hty, heqy⟩, hmin2⟩ := OBB.intersects_colliding_char other b hB h2
    obtain ⟨ax2, hm2, hls2, hov2⟩ := OBB.candidate_transfer b other ax hm
    obtain ⟨ay2, hmy2, hlsy2, hovy2⟩ := OBB.candidate_transfer other b ay hmy
    have h21 : (other.intersects b).penetrationDepth ≤ (b.intersects other).penetrationDepth := by
      rw [heq, ← hov2]
      exact hmin2 ax2 hm2 (by simp only [testedAxis, hls2]; exact ht)
    have h12 : (b.intersects other).penetrationDepth ≤ (other.intersects b).penetrationDepth := by
      rw [heqy, ← hovy2]
      exact hmin1 ay2 hmy2 (by simp only [testedAxis, hlsy2]; exact hty)
    exact le_antisymm h12 h21

/-- Witness for C3 at two concrete overlapping unit cubes. -/
theorem satC3_witness :
    Mat3.id.Orthonormal ∧ symConclusion boxUnitAtOrigin (boxUnitAtX 1) :=
  ⟨Mat3.orthonormal_id,
    satC3 boxUnitAtOrigin (boxUnitAtX 1) Mat3.orthonormal_id Mat3.orthonormal_id⟩

/-! Axis-aligned reduction. -/

/-- Axes of an identity-oriented box are the world basis vectors. -/
theorem OBB.getAxes_id (b : OBB) (hA : b.orientation = Mat3.id) :
    b.getAxes = [⟨1, 0, 0⟩, ⟨0, 1, 0⟩, ⟨0, 0, 1⟩] := by
  rw [OBB.getAxes, OBB.axisX_eq, OBB.axisY_eq, OBB.axisZ_eq, hA]
  rfl

/-- The candidate axis list of two identity-oriented boxes, fully
evaluated: the six box axes plus the six surviving cross products. -/
theorem candidates_id (b other : OBB) (hA : b.orientation = Mat3.id)
    (hB : other.orientation = Mat3.id) :
    b.candidateAxes other =
      [⟨1, 0, 0⟩, ⟨0, 1, 0⟩, ⟨0, 0, 1⟩, ⟨1, 0, 0⟩, ⟨0, 1, 0⟩, ⟨0, 0, 1⟩,
       ⟨0, 0, 1⟩, ⟨0, -1, 0⟩, ⟨0, 0, -1⟩, ⟨1, 0, 0⟩, ⟨0, 1, 0⟩, ⟨-1, 0, 0⟩] := by
  rw [OBB.candidateAxes, OBB.getAxes_id b hA, OBB.getAxes_id other hB]
  norm_num [getCrossProductAxes, crossRow, Vec3.cross, Vec3.lengthSq, Vec3.dot, axEps]

/-- Projection of an identity-oriented box onto the world x axis: the
interval around the center with radius the absolute half-extent. -/
theorem OBB.proj_unitX_id (b : OBB) (hA : b.orientation = Mat3.id) :
    b.projectOnAxis ⟨1, 0, 0⟩ =
      ⟨b.center.x - |b.halfExtents.x|, b.center.x + |b.halfExtents.x|⟩ := by
  ext <;> norm_num [OBB.projectOnAxis, OBB.axisX_eq, OBB.axisY_eq, OBB.axisZ_eq, hA,
    Mat3.id, Vec3.dot]

/-- Projection of an identity-oriented box onto the world y axis: the
interval around the center with radius the absolute half-extent. -/
theorem OBB.proj_unitY_id (b : OBB) (hA : b.orientation = Mat3.id) :
    b.projectOnAxis ⟨0, 1, 0⟩ =
      ⟨b.center.y - |b.halfExtents.y|, b.center.y + |b.halfExtents.y|⟩ := by
  ext <;> norm_num [OBB.projectOnAxis, OBB.axisX_eq, OBB.axisY_eq, OBB.axisZ_eq, hA,
    Mat3.id, Vec3.dot]

/-- Projection of an identity-oriented box onto the world z axis: the
interval around the center with radius the absolute half-extent. -/
theorem OBB.proj_unitZ_id (b : OBB) (hA : b.orientation = Mat3.id) :
    b.projectOnAxis ⟨0, 0, 1⟩ =
      ⟨b.center.z - |b.halfExtents.z|, b.center.z + |b.halfExtents.z|⟩ := by
  ext <;> norm_num [OBB.projectOnAxis, OBB.axisX_eq, OBB.axisY_eq, OBB.axisZ_eq, hA,
    Mat3.id, Vec3.dot]

/-- Tested overlap on a unit axis is the raw projection overlap. -/
theorem OBB.axisOverlap_unit (b other : OBB) (v : Vec3) (h : v.lengthSq = 1) :
    b.axisOverlap other v = b.overlapOn other v := by
  rw [OBB.axisOverlap, Vec3.normalize_of_unit v h]

/-- Tested overlap of identity-oriented boxes on the world x axis. -/
theorem OBB.overlap_unitX_id (b other : OBB) (hA : b.orientation = Mat3.id)
    (hB : other.orientation = Mat3.id) :
    b.axisOverlap other ⟨1, 0, 0⟩ =
      min (b.center.x + |b.halfExtents.x|) (other.center.x + |other.halfExtents.x|) -
        max (b.center.x - |b.halfExtents.x|) (other.center.x - |other.halfExtents.x|) := by
  rw [OBB.axisOverlap_unit b other _ (by norm_num [Vec3.lengthSq, Vec3.dot]), OBB.overlapOn,
    OBB.proj_unitX_id b hA, OBB.proj_unitX_id other hB]

/-- Tested overlap of identity-oriented boxes on the world y axis. -/
theorem OBB.overlap_unitY_id (b other : OBB) (hA : b.orientation = Mat3.id)
    (hB : other.orientation = Mat3.id) :
    b.axisOverlap other ⟨0, 1, 0⟩ =
      min (b.center.y + |b.halfExtents.y|) (other.center.y + |other.halfExtents.y|) -
        max (b.center.y - |b.halfExtents.y|) (other.center.y - |other.halfExtents.y|) := by
  rw [OBB.axisOverlap_unit b other _ (by norm_num [Vec3.lengthSq, Vec3.dot]), OBB.overlapOn,
    OBB.proj_unitY_id b hA, OBB.proj_unitY_id other hB]

/-- Tested overlap of identity-oriented boxes on the world z axis. -/
theorem OBB.overlap_unitZ_id (b other : OBB) (hA : b.orientation = Mat3.id)
    (hB : other.orientation = Mat3.id) :
    b.axisOverlap other ⟨0, 0, 1⟩ =
      min (b.center.z + |b.halfExtents.z|) (other.center.z + |other.halfExtents.z|) -
        max (b.center.z - |b.halfExtents.z|) (other.center.z - |other.halfExtents.z|) := by
  rw [OBB.axisOverlap_unit b other _ (by norm_num [Vec3.lengthSq, Vec3.dot]), OBB.overlapOn,
    OBB.proj_unitZ_id b hA, OBB.proj_unitZ_id other hB]

/-- For identity-oriented boxes the SAT test reports a collision
exactly when the overlaps on the three world axes are all strictly
positive: the twelve tested candidate axes collapse to the three world
axes up to sign. -/
theorem intersects_id_true_iff (b other : OBB) (hA : b.orientation = Mat3.id)
    (hB : other.orientation = Mat3.id) :
    (b.intersects other).isColliding = true ↔
      (0 < b.axisOverlap other ⟨1, 0, 0⟩ ∧ 0 < b.axisOverlap other ⟨0, 1, 0⟩ ∧
        0 < b.axisOverlap other ⟨0, 0, 1⟩) := by
  have hux : Vec3.lengthSq ⟨1, 0, 0⟩ = 1 := by norm_num [Vec3.lengthSq, Vec3.dot]
  have huy : Vec3.lengthSq ⟨0, 1, 0⟩ = 1 := by norm_num [Vec3.lengthSq, Vec3.dot]
  have huz : Vec3.lengthSq ⟨0, 0, 1⟩ = 1 := by norm_num [Vec3.lengthSq, Vec3.dot]
  have hnegX : b.axisOverlap other ⟨-1, 0, 0⟩ = b.axisOverlap other ⟨1, 0, 0⟩ := by
    have hh : (⟨-1, 0, 0⟩ : Vec3) = Vec3.neg ⟨1, 0, 0⟩ := by ext <;> norm_num [Vec3.neg]
    rw [hh, OBB.axisOverlap_neg]
  have hnegY : b.axisOverlap other ⟨0, -1, 0⟩ = b.axisOverlap other ⟨0, 1, 0⟩ := by
    have hh : (⟨0, -1, 0⟩ : Vec3) = Vec3.neg ⟨0, 1, 0⟩ := by ext <;> norm_num [Vec3.neg]
    rw [hh, OBB.axisOverlap_neg]
  have hnegZ : b.axisOverlap other ⟨0, 0, -1⟩ = b.axisOverlap other ⟨0, 0, 1⟩ := by
    have hh : (⟨0, 0, -1⟩ : Vec3) = Vec3.neg ⟨0, 0, 1⟩ := by ext <;> norm_num [Vec3.neg]
    rw [hh, OBB.axisOverlap_neg]
  have hfalse := OBB.intersects_false_iff b other
  rw [candidates_id b other hA hB] at hfalse
  have hiff : (b.intersects other).isColliding = false ↔
      (b.axisOverlap other ⟨1, 0, 0⟩ ≤ 0 ∨ b.axisOverlap other ⟨0, 1, 0⟩ ≤ 0 ∨
        b.axisOverlap other ⟨0, 0, 1⟩ ≤ 0) := by
    rw [hfalse]
    constructor
    · rintro ⟨ax, hm, ht, hle⟩
      simp only [List.mem_cons, List.not_mem_nil, or_false] at hm
      rcases hm with rfl | rfl | rfl | rfl | rfl | rfl | rfl | rfl | rfl | rfl | rfl | rfl
      · exact Or.inl hle
      · exact Or.inr (Or.inl hle)
      · exact Or.inr (Or.inr hle)
      · exact Or.inl hle
      · exact Or.inr (Or.inl hle)
      · exact Or.inr (Or.inr hle)
      · exact Or.inr (Or.inr hle)
      · exact Or.inr (Or.inl (by rwa [hnegY] at hle))
      · exact Or.inr (Or.inr (by rwa [hnegZ] at hle))
      · exact Or.inl hle
      · exact Or.inr (Or.inl hle)
      · exact Or.inl (by rwa [hnegX] at hle)
    · rintro (hle | hle | hle)
      · exact ⟨⟨1, 0, 0⟩, by simp, testedAxis_of_unit _ hux, hle⟩
      · exact ⟨⟨0, 1, 0⟩, by simp, testedAxis_of_unit _ huy, hle⟩
      · exact ⟨⟨0, 0, 1⟩, by simp, testedAxis_of_unit _ huz, hle⟩
  have key : (b.intersects other).isColliding = true ↔
      ¬(b.axisOverlap other ⟨1, 0, 0⟩ ≤ 0 ∨ b.axisOverlap other ⟨0, 1, 0⟩ ≤ 0 ∨
        b.axisOverlap other ⟨0, 0, 1⟩ ≤ 0) := by
    constructor
    · intro hc hd
      have hf := hiff.mpr hd
      rw [hc] at hf
      exact Bool.noConfusion hf
    · intro hn
      cases h : (b.intersects other).isColliding
      · exact absurd (hiff.mp h) hn
      · rfl
  rw [key]
  push_neg
  rfl

/-- C6 counterexample: the constructible identity-oriented box with
half-extents `(-1, -1, -1)` collides with itself under the SAT test
(its projections have the width of the absolute half-extents), while
the interval overlap test on
`[center - halfExtent, center + halfExtent]` reports no overlap: the
claimed unconditional equivalence fails. -/
theorem satC6_counterexample :
    (negBox.intersects negBox).isColliding = true ∧ ¬ specAABBOverlap negBox negBox := by
  constructor
  · rw [intersects_id_true_iff negBox negBox rfl rfl]
    refine ⟨?_, ?_, ?_⟩
    · rw [OBB.overlap_unitX_id negBox negBox rfl rfl]
      norm_num [negBox, Vec3.zero]
    · rw [OBB.overlap_unitY_id negBox negBox rfl rfl]
      norm_num [negBox, Vec3.zero]
    · rw [OBB.overlap_unitZ_id negBox negBox rfl rfl]
      norm_num [negBox, Vec3.zero]
  · rintro ⟨h1, _, _⟩
    norm_num [negBox, Vec3.zero] at h1

/-- C6 (amended): for two identity-oriented boxes with non-negative
half-extents the SAT test agrees exactly with the plain axis-aligned
bounding-box overlap test on the three world-axis intervals, with
strict overlap required on each axis. -/
theorem satC6 (b other : OBB) (hA : b.orientation = Mat3.id)
    (hB : other.orientation = Mat3.id)
    (hb : 0 ≤ b.halfExtents.x ∧ 0 ≤ b.halfExtents.y ∧ 0 ≤ b.halfExtents.z)
    (ho : 0 ≤ other.halfExtents.x ∧ 0 ≤ other.halfExtents.y ∧ 0 ≤ other.halfExtents.z) :
    (b.intersects other).isColliding = true ↔ specAABBOverlap b other := by
  rw [intersects_id_true_iff b other hA hB,
    OBB.overlap_unitX_id b other hA hB, OBB.overlap_unitY_id b other hA hB,
    OBB.overlap_unitZ_id b other hA hB,
    abs_of_nonneg hb.1, abs_of_nonneg hb.2.1, abs_of_nonneg hb.2.2,
    abs_of_nonneg ho.1, abs_of_nonneg ho.2.1, abs_of_nonneg ho.2.2]
  simp only [specAABBOverlap]
  constructor
  · rintro ⟨h1, h2, h3⟩
    exact ⟨sub_pos.mp h1, sub_pos.mp h2, sub_pos.mp h3⟩
  · rintro ⟨h1, h2, h3⟩
    exact ⟨sub_pos.mpr h1, sub_pos.mpr h2, sub_pos.mpr h3⟩

/-- Witness for the amended C6 at two concrete axis-aligned unit
cubes. -/
theorem satC6_witness :
    boxUnitAtOrigin.orientation = Mat3.id ∧ (0 ≤ (1 : ℝ) ∧ 0 ≤ (1 : ℝ) ∧ 0 ≤ (1 : ℝ)) ∧
    ((boxUnitAtOrigin.intersects (boxUnitAtX 1)).isColliding = true ↔
      specAABBOverlap boxUnitAtOrigin (boxUnitAtX 1)) :=
  ⟨rfl, ⟨zero_le_one, zero_le_one, zero_le_one⟩,
    satC6 boxUnitAtOrigin (boxUnitAtX 1) rfl rfl
      ⟨zero_le_one, zero_le_one, zero_le_one⟩ ⟨zero_le_one, zero_le_one, zero_le_one⟩⟩

/-! Boundary behavior of `containsPoint` versus `intersects`. -/

/-- `containsPoint` accepts any point whose projection magnitudes are
all bounded by the half-extents (boundary included). -/
theorem OBB.containsPoint_of_le (b : OBB) (p : Vec3)
    (h1 : |Vec3.dot (Vec3.sub p b.center) b.axisX| ≤ b.halfExtents.x)
    (h2 : |Vec3.dot (Vec3.sub p b.center) b.axisY| ≤ b.halfExtents.y)
    (h3 : |Vec3.dot (Vec3.sub p b.center) b.axisZ| ≤ b.halfExtents.z) :
    b.containsPoint p = true := by
  simp only [OBB.containsPoint]
  rw [if_neg (not_lt.mpr h1), if_neg (not_lt.mpr h2), if_neg (not_lt.mpr h3)]

/-- C9: `containsPoint` is boundary-inclusive: a point whose projection
equals a half-extent on some axis (and is within bounds on all axes)
is contained; `intersects` is boundary-exclusive: a tested candidate
axis whose projection overlap is exactly `0` forces
`isColliding = false`. -/
theorem satC9 :
    (∀ (b : OBB) (p : Vec3), b.orientation.Orthonormal →
      |Vec3.dot (Vec3.sub p b.center) b.axisX| ≤ b.halfExtents.x →
      |Vec3.dot (Vec3.sub p b.center) b.axisY| ≤ b.halfExtents.y →
      |Vec3.dot (Vec3.sub p b.center) b.axisZ| ≤ b.halfExtents.z →
      (|Vec3.dot (Vec3.sub p b.center) b.axisX| = b.halfExtents.x ∨
        |Vec3.dot (Vec3.sub p b.center) b.axisY| = b.halfExtents.y ∨
        |Vec3.dot (Vec3.sub p b.center) b.axisZ| = b.halfExtents.z) →
      b.containsPoint p = true) ∧
    (∀ (b other : OBB) (ax : Vec3), ax ∈ b.candidateAxes other → testedAxis ax →
      b.axisOverlap other ax = 0 → (b.intersects other).isColliding = false) := by
  constructor
  · intro b p _ h1 h2 h3 _
    exact OBB.containsPoint_of_le b p h1 h2 h3
  · intro b other ax hm ht h0
    exact (OBB.intersects_false_iff b other).mpr ⟨ax, hm, ht, le_of_eq h0⟩

/-- Witness for C9: a face point of the unit cube is contained, and two
unit cubes touching exactly on a face do not collide. -/
theorem satC9_witness :
    boxUnitAtOrigin.containsPoint ⟨1, 0, 0⟩ = true ∧
    (boxUnitAtOrigin.intersects (boxUnitAtX 2)).isColliding = false := by
  have hux : Vec3.lengthSq ⟨1, 0, 0⟩ = 1 := by norm_num [Vec3.lengthSq, Vec3.dot]
  constructor
  · apply satC9.1 boxUnitAtOrigin ⟨1, 0, 0⟩ Mat3.orthonormal_id
    · norm_num [boxUnitAtOrigin, OBB.axisX_eq, Mat3.id, Vec3.dot, Vec3.sub, Vec3.zero]
    · norm_num [boxUnitAtOrigin, OBB.axisY_eq, Mat3.id, Vec3.dot, Vec3.sub, Vec3.zero]
    · norm_num [boxUnitAtOrigin, OBB.axisZ_eq, Mat3.id, Vec3.dot, Vec3.sub, Vec3.zero]
    · exact Or.inl (by norm_num [boxUnitAtOrigin, OBB.axisX_eq, Mat3.id, Vec3.dot,
        Vec3.sub, Vec3.zero])
  · apply satC9.2 boxUnitAtOrigin (boxUnitAtX 2) ⟨1, 0, 0⟩
    · rw [candidates_id boxUnitAtOrigin (boxUnitAtX 2) rfl rfl]
      simp
    · exact testedAxis_of_unit _ hux
    · rw [OBB.axisOverlap_unit _ _ _ hux, OBB.overlapOn,
        OBB.proj_unitX_id boxUnitAtOrigin rfl, OBB.proj_unitX_id (boxUnitAtX 2) rfl]
      norm_num [boxUnitAtOrigin, boxUnitAtX, Vec3.zero]

/-! Raycasting. -/

/-- Reflexivity of the extended distance order. -/
theorem distLE_refl : ∀ a : Option ℝ, distLE a a
  | some _ => le_refl _
  | none => True.intro

/-- Transitivity of the extended distance order. -/
theorem distLE_trans : ∀ {a c e : Option ℝ}, distLE a c → distLE c e → distLE a e
  | some _, some _, some _, h1, h2 => le_trans h1 h2
  | some _, some _, none, _, _ => True.intro
  | some _, none, some _, _, h2 => h2.elim
  | some _, none, none, _, _ => True.intro
  | none, some _, _, h1, _ => h1.elim
  | none, none, some _, _, h2 => h2.elim
  | none, none, none, _, _ => True.intro

/-- Strict extended distance order implies the weak one. -/
theorem distLE_of_distLT : ∀ {a c : Option ℝ}, distLT a c → distLE a c
  | some _, some _, h => le_of_lt h
  | some _, none, _ => True.intro
  | none, some _, h => h.elim
  | none, none, h => h.elim

/-- Failure of the strict order gives the reversed weak order. -/
theorem distLE_of_not_distLT : ∀ {a c : Option ℝ}, ¬ distLT a c → distLE c a
  | some _, some _, h => le_of_not_lt h
  | some _, none, h => (h True.intro).elim
  | none, some _, _ => True.intro
  | none, none, _ => True.intro

/-- The raycast fold returns `none` exactly when it started with no
best hit and no remaining object has a qualifying hit. -/
theorem raycastLoop_eq_none_iff (ray : Ray) (maxD : Option ℝ) (l : List (String × HObj))
    (closest : Option RaycastHit) :
    raycastLoop ray maxD l closest = none ↔
      closest = none ∧ ∀ io ∈ l, ∀ h : RayHit, io.2.obb.intersectsRay ray = some h →
        ¬ distLE h.distance maxD := by
  induction l generalizing closest with
  | nil => simp [raycastLoop]
  | cons io rest ih =>
      obtain ⟨i, o⟩ := io
      rcases hir : o.obb.intersectsRay ray with _ | h
      · simp only [raycastLoop, hir]
        rw [ih]
        constructor
        · rintro ⟨rfl, hrest⟩
          refine ⟨rfl, ?_⟩
          intro io2 hm h2 hh2
          rcases List.mem_cons.mp hm with rfl | hm
          · dsimp only at hh2; rw [hir] at hh2; exact Option.noConfusion hh2
          · exact hrest io2 hm h2 hh2
        · rintro ⟨rfl, hall⟩
          exact ⟨rfl, fun io2 hm h2 hh2 => hall io2 (List.mem_cons_of_mem _ hm) h2 hh2⟩
      · simp only [raycastLoop, hir]
        by_cases hq : distLE h.distance maxD
        · rw [if_pos hq]
          have habs : ∀ P : Prop, (∀ io2 ∈ (i, o) :: rest, ∀ h2 : RayHit,
              io2.2.obb.intersectsRay ray = some h2 → ¬ distLE h2.distance maxD) → P := by
            intro P hall
            exact absurd hq (hall (i, o) (List.mem_cons_self _ _) h hir)
          rcases closest with _ | c
          · dsimp only
            rw [ih]
            constructor
            · rintro ⟨hc, _⟩; exact Option.noConfusion hc
            · rintro ⟨_, hall⟩; exact habs _ hall
          · dsimp only
            by_cases hlt : distLT h.distance c.distance
            · rw [if_pos hlt, ih]
              constructor
              · rintro ⟨hc, _⟩; exact Option.noConfusion hc
              · rintro ⟨_, hall⟩; exact habs _ hall
            · rw [if_neg hlt, ih]
              constructor
              · rintro ⟨hc, _⟩; exact Option.noConfusion hc
              · rintro ⟨_, hall⟩; exact habs _ hall
        · rw [if_neg hq, ih]
          constructor
          · rintro ⟨rfl, hrest⟩
            refine ⟨rfl, ?_⟩
            intro io2 hm h2 hh2
            rcases List.mem_cons.mp hm with rfl | hm
            · dsimp only at hh2; rw [hir] at hh2
              injection hh2 with hh2; subst hh2; exact hq
            · exact hrest io2 hm h2 hh2
          · rintro ⟨rfl, hall⟩
            exact ⟨rfl, fun io2 hm h2 hh2 => hall io2 (List.mem_cons_of_mem _ hm) h2 hh2⟩

/-- Any hit returned by the raycast fold either is the incoming best
hit or comes from a qualifying remaining object, and it is a lower
bound (in the extended order) of all qualifying hits and of the
incoming best hit. -/
theorem raycastLoop_eq_some_char (ray : Ray) (maxD : Option ℝ) (l : List (String × HObj)) :
    ∀ (closest : Option RaycastHit) (c : RaycastHit),
      raycastLoop ray maxD l closest = some c →
      (closest = some c ∨ ∃ io ∈ l, ∃ h : RayHit, io.2.obb.intersectsRay ray = some h ∧
        distLE h.distance maxD ∧ c = ⟨io.1, io.2, h.distance, h.point⟩) ∧
      (∀ io ∈ l, ∀ h : RayHit, io.2.obb.intersectsRay ray = some h →
        distLE h.distance maxD → distLE c.distance h.distance) ∧
      (∀ c0 : RaycastHit, closest = some c0 → distLE c.distance c0.distance) := by
  induction l with
  | nil =>
      intro closest c hc
      simp only [raycastLoop] at hc
      refine ⟨Or.inl hc, by simp, ?_⟩
      intro c0 h0
      rw [hc] at h0
      injection h0 with h0
      subst h0
      exact distLE_refl _
  | cons io rest ih =>
      obtain ⟨i, o⟩ := io
      intro closest c hc
      rcases hir : o.obb.intersectsRay ray with _ | h
      · simp only [raycastLoop, hir] at hc
        obtain ⟨h1, h2, h3⟩ := ih closest c hc
        refine ⟨?_, ?_, h3⟩
        · rcases h1 with h1 | ⟨io2, hm, hh⟩
          · exact Or.inl h1
          · exact Or.inr ⟨io2, List.mem_cons_of_mem _ hm, hh⟩
        · intro io2 hm h2x hh2 hq2
          rcases List.mem_cons.mp hm with rfl | hm
          · dsimp only at hh2; rw [hir] at hh2; exact Option.noConfusion hh2
          · exact h2 io2 hm h2x hh2 hq2
      · simp only [raycastLoop, hir] at hc
        by_cases hq : distLE h.distance maxD
        · rw [if_pos hq] at hc
          rcases closest with _ | c0
          · dsimp only at hc
            obtain ⟨h1, h2, h3⟩ := ih (some ⟨i, o, h.distance, h.point⟩) c hc
            have hcd : distLE c.distance h.distance := h3 _ rfl
            refine ⟨?_, ?_, fun c1 h0 => Option.noConfusion h0⟩
            · rcases h1 with h1 | ⟨io2, hm, hh⟩
              · injection h1 with h1
                exact Or.inr ⟨(i, o), List.mem_cons_self _ _, h, hir, hq, h1.symm⟩
              · exact Or.inr ⟨io2, List.mem_cons_of_mem _ hm, hh⟩
            · intro io2 hm h2x hh2 hq2
              rcases List.mem_cons.mp hm with rfl | hm
              · dsimp only at hh2; rw [hir] at hh2
                injection hh2 with hh2; subst hh2; exact hcd
              · exact h2 io2 hm h2x hh2 hq2
          · dsimp only at hc
            by_cases hlt : distLT h.distance c0.distance
            · rw [if_pos hlt] at hc
              obtain ⟨h1, h2, h3⟩ := ih (some ⟨i, o, h.distance, h.point⟩) c hc
              have hcd : distLE c.distance h.distance := h3 _ rfl
              refine ⟨?_, ?_, ?_⟩
              · rcases h1 with h1 | ⟨io2, hm, hh⟩
                · injection h1 with h1
                  exact Or.inr ⟨(i, o), List.mem_cons_self _ _, h, hir, hq, h1.symm⟩
                · exact Or.inr ⟨io2, List.mem_cons_of_mem _ hm, hh⟩
              · intro io2 hm h2x hh2 hq2
                rcases List.mem_cons.mp hm with rfl | hm
                · dsimp only at hh2; rw [hir] at hh2
                  injection hh2 with hh2; subst hh2; exact hcd
                · exact h2 io2 hm h2x hh2 hq2
              · rintro c1 hc1
                injection hc1 with hc1; subst hc1
                exact distLE_trans hcd (distLE_of_distLT hlt)
            · rw [if_neg hlt] at hc
              obtain ⟨h1, h2, h3⟩ := ih (some c0) c hc
              have hc0 : distLE c.distance c0.distance := h3 c0 rfl
              refine ⟨?_, ?_, ?_⟩
              · rcases h1 with h1 | ⟨io2, hm, hh⟩
                · exact Or.inl h1
                · exact Or.inr ⟨io2, List.mem_cons_of_mem _ hm, hh⟩
              · intro io2 hm h2x hh2 hq2
                rcases List.mem_cons.mp hm with rfl | hm
                · dsimp only at hh2; rw [hir] at hh2
                  injection hh2 with hh2; subst hh2
                  exact distLE_trans hc0 (distLE_of_not_distLT hlt)
                · exact h2 io2 hm h2x hh2 hq2
              · rintro c1 hc1
                injection hc1 with hc1; subst hc1
                exact hc0
        · rw [if_neg hq] at hc
          obtain ⟨h1, h2, h3⟩ := ih closest c hc
          refine ⟨?_, ?_, h3⟩
          · rcases h1 with h1 | ⟨io2, hm, hh⟩
            · exact Or.inl h1
            · exact Or.inr ⟨io2, List.mem_cons_of_mem _ hm, hh⟩
          · intro io2 hm h2x hh2 hq2
            rcases List.mem_cons.mp hm with rfl | hm
            · dsimp only at hh2; rw [hir] at hh2
              injection hh2 with hh2; subst hh2
              exact absurd hq2 hq
            · exact h2 io2 hm h2x hh2 hq2

/-- C7: `raycast` returns the minimal-distance hit among all registered
boxes' ray hits within `maxDistance` and `none` when there is no such
hit; in particular the scenario ray from `(-5,0,0)` along `(1,0,0)`
against the unit cube at the origin hits at distance `4` and point
`(-1,0,0)`. -/
theorem satC7 :
    (∀ (objects : List (String × HObj)) (ray : Ray) (maxDistance : Option ℝ),
      raycastConclusion objects ray maxDistance) ∧
    raycast [("box", scenarioObj)] rayScenario none =
      some ⟨"box", scenarioObj, some 4, ⟨-1, 0, 0⟩⟩ := by
  constructor
  · intro objects ray maxD
    constructor
    · rw [raycast, raycastLoop_eq_none_iff]
      simp
    · intro c hc
      obtain ⟨h1, h2, h3⟩ := raycastLoop_eq_some_char ray maxD objects none c hc
      rcases h1 with h1 | ⟨io, hm, h, hhit, hq, rfl⟩
      · exact Option.noConfusion h1
      · exact ⟨⟨io, hm, rfl, rfl, hhit⟩, hq, h2⟩
  · have hray : scenarioObj.obb.intersectsRay rayScenario = some ⟨some 4, ⟨-1, 0, 0⟩⟩ := by
      norm_num [scenarioObj, OBB.intersectsRay, slabFold, slabStep, slabMax, slabMin, slabGT,
        boxUnitAtOrigin, rayScenario, OBB.axisX, OBB.axisY, OBB.axisZ, Mat3.apply, Mat3.id,
        Vec3.dot, Vec3.sub, Vec3.smul, Vec3.add, Vec3.zero, axEps]
    simp only [raycast, raycastLoop, hray]
    rw [if_pos (show distLE (some (4 : ℝ)) none from True.intro)]

/-- Witness for C7: the general characterization instantiated at the
scenario configuration, together with the scenario hit itself. -/
theorem satC7_witness :
    raycastConclusion [("box", scenarioObj)] rayScenario none ∧
    raycast [("box", scenarioObj)] rayScenario none =
      some ⟨"box", scenarioObj, some 4, ⟨-1, 0, 0⟩⟩ :=
  ⟨satC7.1 [("box", scenarioObj)] rayScenario none, satC7.2⟩

/-! Collision resolution effect. -/

/-- Composition of scalar multiplications. -/
theorem Vec3.smul_smul (a c : ℝ) (v : Vec3) :
    Vec3.smul a (Vec3.smul c v) = Vec3.smul (a * c) v := by
  ext <;> simp [Vec3.smul] <;> ring

/-- C8: `resolveCollision` with the default equal masses shifts the
first object's mesh by `-(1/2) * depth * strength` along the
separating axis and the second by the opposite amount, refreshes
exactly those two objects' OBBs from their updated meshes, and leaves
every other registered entry unchanged. -/
theorem satC8 (p : List (String × HObj)) (id1 id2 : String) (r : OBBCollisionResult)
    (strength : ℝ) (hne : id1 ≠ id2) :
    resolveCollision p id1 id2 r strength = p.map (resolvedUpdate id1 id2 r strength) := by
  simp only [resolveCollision, refreshOBB, setPos, List.map_map]
  refine congrArg (fun f => List.map f p) (funext fun e => ?_)
  simp only [Function.comp, resolvedUpdate, meshShiftSub, meshShiftAdd]
  by_cases h1 : e.1 = id1
  · simp [h1, hne, Vec3.smul_smul]
    norm_num
  · by_cases h2 : e.1 = id2
    · simp [h2, Ne.symm hne, Vec3.smul_smul]
      norm_num
    · simp [h1, h2]

/-- Witness for C8 at a concrete two-object pipeline. -/
theorem satC8_witness :
    ("a" : String) ≠ "b" ∧
    resolveCollision [("a", scenarioObj), ("b", shiftedObj)] "a" "b"
        ⟨true, 1, ⟨1, 0, 0⟩, Vec3.zero⟩ 1 =
      [("a", scenarioObj), ("b", shiftedObj)].map
        (resolvedUpdate "a" "b" ⟨true, 1, ⟨1, 0, 0⟩, Vec3.zero⟩ 1) :=
  ⟨by decide, satC8 [("a", scenarioObj), ("b", shiftedObj)] "a" "b"
    ⟨true, 1, ⟨1, 0, 0⟩, Vec3.zero⟩ 1 (by decide)⟩

/-! Registration: `Map.set` semantics of `addObject`. -/

/-- Looking up the replaced key after an in-place replacement. -/
theorem mapGet_map_replace {β : Type} (l : List (String × β)) (k : String) (v : β)
    (hl : l.any (fun e => decide (e.1 = k)) = true) :
    mapGet (l.map (fun e => if e.1 = k then (k, v) else e)) k = some v := by
  induction l with
  | nil => simp at hl
  | cons e rest ih =>
      by_cases he : e.1 = k
      · simp [mapGet, he]
      · have hr : rest.any (fun e2 => decide (e2.1 = k)) = true := by
          simpa [List.any_cons, he] using hl
        simp [mapGet, he, ih hr]

/-- Looking up the appended key when it was absent. -/
theorem mapGet_append_single {β : Type} (l : List (String × β)) (k : String) (v : β)
    (hl : l.any (fun e => decide (e.1 = k)) = false) :
    mapGet (l ++ [(k, v)]) k = some v := by
  induction l with
  | nil => simp [mapGet]
  | cons e rest ih =>
      simp only [List.any_cons, Bool.or_eq_false_iff] at hl
      have he : ¬ e.1 = k := of_decide_eq_false hl.1
      simp only [List.cons_append, mapGet, if_neg he]
      exact ih hl.2

/-- `Map.set` then `Map.get` on the same key always yields the new
value: the source's `addObject` silently overwrites. -/
theorem mapGet_mapSet_self {β : Type} (l : List (String × β)) (k : String) (v : β) :
    mapGet (mapSet l k v) k = some v := by
  rw [mapSet]
  by_cases hany : l.any (fun e => decide (e.1 = k)) = true
  · rw [if_pos hany]
    exact mapGet_map_replace l k v hany
  · rw [if_neg hany]
    exact mapGet_append_single l k v (Bool.eq_false_iff.mpr hany)

/-- In-place replacement does not affect other keys. -/
theorem mapGet_map_replace_ne {β : Type} (l : List (String × β)) (k k2 : String) (v : β)
    (h : k2 ≠ k) :
    mapGet (l.map (fun e => if e.1 = k then (k, v) else e)) k2 = mapGet l k2 := by
  induction l with
  | nil => simp [mapGet]
  | cons e rest ih =>
      by_cases he : e.1 = k
      · have hek : ¬ k = k2 := fun hx => h (hx.symm)
        have hek2 : ¬ e.1 = k2 := by rw [he]; exact hek
        simp only [List.map_cons, if_pos he, mapGet, if_neg hek, if_neg hek2]
        exact ih
      · by_cases he2 : e.1 = k2
        · simp only [List.map_cons, if_neg he, mapGet, if_pos he2]
        · simp only [List.map_cons, if_neg he, mapGet, if_neg he2]
          exact ih

/-- Appending a fresh key does not affect other keys. -/
theorem mapGet_append_single_ne {β : Type} (l : List (String × β)) (k k2 : String) (v : β)
    (h : k2 ≠ k) :
    mapGet (l ++ [(k, v)]) k2 = mapGet l k2 := by
  induction l with
  | nil =>
      have hk : ¬ k = k2 := fun hx => h hx.symm
      simp [mapGet, hk]
  | cons e rest ih =>
      by_cases he : e.1 = k2
      · simp only [List.cons_append, mapGet, if_pos he]
      · simp only [List.cons_append, mapGet, if_neg he]
        exact ih

/-- `Map.set` does not affect other keys. -/
theorem mapGet_mapSet_ne {β : Type} (l : List (String × β)) (k k2 : String) (v : β)
    (h : k2 ≠ k) :
    mapGet (mapSet l k v) k2 = mapGet l k2 := by
  rw [mapSet]
  by_cases hany : l.any (fun e => decide (e.1 = k)) = true
  · rw [if_pos hany]
    exact mapGet_map_replace_ne l k k2 v h
  · rw [if_neg hany]
    exact mapGet_append_single_ne l k k2 v h

/-- C2 counterexample: re-adding a registered id does not leave the
existing registration unchanged; the stored object is replaced by one
built from the new mesh. -/
theorem regC2_counterexample :
    mapGet (addObject (addObject emptyHState "a" meshTrivial ShapeKind.box) "a" meshShifted
        ShapeKind.box).objects "a" ≠
      mapGet (addObject emptyHState "a" meshTrivial ShapeKind.box).objects "a" := by
  intro h
  rw [show (addObject (addObject emptyHState "a" meshTrivial ShapeKind.box) "a" meshShifted
        ShapeKind.box).objects =
      mapSet (mapSet [] "a" ⟨meshTrivial, OBB.fromMesh meshTrivial, ShapeKind.box⟩) "a"
        ⟨meshShifted, OBB.fromMesh meshShifted, ShapeKind.box⟩ from rfl,
    mapGet_mapSet_self] at h
  rw [show (addObject emptyHState "a" meshTrivial ShapeKind.box).objects =
      mapSet [] "a" ⟨meshTrivial, OBB.fromMesh meshTrivial, ShapeKind.box⟩ from rfl,
    mapGet_mapSet_self] at h
  injection h with h
  injection h with hm ho hs
  have hx := congrArg (fun m : Mesh => m.position.x) hm
  norm_num [meshShifted, meshTrivial, Vec3.zero] at hx

/-- C2 (amended): re-adding a registered id silently overwrites both
the stored object (mesh, OBB, shape) and the broad-phase footprint
with values computed from the new mesh, and leaves every other id's
registrations unchanged; no error is signalled. -/
theorem satC2 (st : HState) (id : String) (mesh : Mesh) (shape : ShapeKind)
    (hreg : ∃ obj, mapGet st.objects id = some obj) :
    mapGet (addObject st id mesh shape).objects id =
      some ⟨mesh, OBB.fromMesh mesh, shape⟩ ∧
    mapGet (addObject st id mesh shape).bodies id =
      some ⟨mesh.worldAABBCenter.x - 2 * mesh.worldAABBHalf.x / 2,
        mesh.worldAABBCenter.z - 2 * mesh.worldAABBHalf.z / 2,
        2 * mesh.worldAABBHalf.x, 2 * mesh.worldAABBHalf.z⟩ ∧
    ∀ id2, id2 ≠ id →
      mapGet (addObject st id mesh shape).objects id2 = mapGet st.objects id2 ∧
      mapGet (addObject st id mesh shape).bodies id2 = mapGet st.bodies id2 := by
  refine ⟨mapGet_mapSet_self _ _ _, mapGet_mapSet_self _ _ _, ?_⟩
  intro id2 hne
  exact ⟨mapGet_mapSet_ne _ _ _ _ hne, mapGet_mapSet_ne _ _ _ _ hne⟩

/-- Witness for the amended C2 on a concrete duplicate registration. -/
theorem satC2_witness :
    (∃ obj, mapGet (addObject emptyHState "a" meshTrivial ShapeKind.box).objects "a" =
      some obj) ∧
    mapGet (addObject (addObject emptyHState "a" meshTrivial ShapeKind.box) "a" meshShifted
        ShapeKind.box).objects "a" =
      some ⟨meshShifted, OBB.fromMesh meshShifted, ShapeKind.box⟩ :=
  ⟨⟨⟨meshTrivial, OBB.fromMesh meshTrivial, ShapeKind.box⟩, mapGet_mapSet_self [] "a" _⟩,
    (satC2 (addObject emptyHState "a" meshTrivial ShapeKind.box) "a" meshShifted ShapeKind.box
      ⟨⟨meshTrivial, OBB.fromMesh meshTrivial, ShapeKind.box⟩, mapGet_mapSet_self [] "a" _⟩).1⟩

/-! The broad phase. -/

/-- A returned overlap rectangle has strictly positive sides. -/
theorem checkAABB_pos {α : Type} [LinearOrderedField α] (a1 a2 : AABB α) (ov : Overlap α)
    (h : checkAABBCollision a1 a2 = some ov) : 0 < ov.width ∧ 0 < ov.height := by
  simp only [checkAABBCollision] at h
  split_ifs at h with hc
  injection h with h
  subst h
  exact ⟨hc.1, hc.2⟩

/-- Every result of the inner loop pairs the fixed body's id with a
later id and carries a strictly positive overlap rectangle. -/
theorem mem_collectPairs {α : Type} [LinearOrderedField α] (b : String × AABB α)
    (rest : List (String × AABB α)) (r : CollisionResult α) (h : r ∈ collectPairs b rest) :
    r.id1 = b.1 ∧ r.id2 ∈ rest.map Prod.fst ∧ 0 < r.overlap.width ∧ 0 < r.overlap.height := by
  induction rest with
  | nil => simp [collectPairs] at h
  | cons b2 rest ih =>
      simp only [collectPairs, List.mem_append] at h
      rcases h with h | h
      · rcases hcab : checkAABBCollision b.2 b2.2 with _ | ov
        · rw [hcab] at h
          simp at h
        · rw [hcab] at h
          simp only [List.mem_singleton] at h
          subst h
          obtain ⟨hw, hh⟩ := checkAABB_pos b.2 b2.2 ov hcab
          refine ⟨rfl, ?_, hw, hh⟩
          rw [List.map_cons]
          exact List.mem_cons_self _ _
      · obtain ⟨h1, h2, h3, h4⟩ := ih h
        refine ⟨h1, ?_, h3, h4⟩
        rw [List.map_cons]
        exact List.mem_cons_of_mem _ h2

/-- Result ids are drawn from the registered ids. -/
theorem mem_checkCollisions_ids {α : Type} [LinearOrderedField α]
    (bodies : List (String × AABB α)) (r : CollisionResult α)
    (h : r ∈ checkCollisions bodies) :
    r.id1 ∈ bodies.map Prod.fst ∧ r.id2 ∈ bodies.map Prod.fst := by
  induction bodies with
  | nil => simp [checkCollisions] at h
  | cons b rest ih =>
      simp only [checkCollisions, List.mem_append] at h
      rw [List.map_cons]
      rcases h with h | h
      · obtain ⟨h1, h2, _, _⟩ := mem_collectPairs b rest r h
        exact ⟨by rw [h1]; exact List.mem_cons_self _ _, List.mem_cons_of_mem _ h2⟩
      · obtain ⟨h1, h2⟩ := ih h
        exact ⟨List.mem_cons_of_mem _ h1, List.mem_cons_of_mem _ h2⟩

/-- Results of the inner loop are pairwise distinct as unordered id
pairs. -/
theorem pairwise_collectPairs {α : Type} [LinearOrderedField α] (b : String × AABB α)
    (rest : List (String × AABB α)) (hb : b.1 ∉ rest.map Prod.fst)
    (hnd : (rest.map Prod.fst).Nodup) :
    (collectPairs b rest).Pairwise (fun r r2 =>
      ¬(r.id1 = r2.id1 ∧ r.id2 = r2.id2) ∧ ¬(r.id1 = r2.id2 ∧ r.id2 = r2.id1)) := by
  induction rest with
  | nil => simp [collectPairs]
  | cons b2 rest ih =>
      obtain ⟨hb2, hnd2⟩ := List.nodup_cons.mp (by rwa [List.map_cons] at hnd)
      have hb3 : b.1 ∉ rest.map Prod.fst := by
        intro hx
        exact hb (by rw [List.map_cons]; exact List.mem_cons_of_mem _ hx)
      simp only [collectPairs]
      rw [List.pairwise_append]
      refine ⟨?_, ih hb3 hnd2, ?_⟩
      · rcases hcab : checkAABBCollision b.2 b2.2 with _ | ov <;> simp
      · intro x hx y hy
        rcases hcab : checkAABBCollision b.2 b2.2 with _ | ov
        · rw [hcab] at hx
          simp at hx
        · rw [hcab] at hx
          simp only [List.mem_singleton] at hx
          subst hx
          obtain ⟨hy1, hy2, _, _⟩ := mem_collectPairs b rest y hy
          constructor
          · rintro ⟨_, hq⟩
            rw [← hq] at hy2
            exact hb2 hy2
          · rintro ⟨hq, _⟩
            rw [← hq] at hy2
            exact hb (by rw [List.map_cons]; exact List.mem_cons_of_mem _ hy2)

/-- C10: given distinct registered ids, `checkCollisions` never pairs
an id with itself, returns each unordered pair at most once, and every
returned record carries an overlap rectangle with strictly positive
width and height. -/
theorem satC10 {α : Type} [LinearOrderedField α] (bodies : List (String × AABB α))
    (hnd : (bodies.map Prod.fst).Nodup) :
    (∀ r ∈ checkCollisions bodies,
      r.id1 ≠ r.id2 ∧ 0 < r.overlap.width ∧ 0 < r.overlap.height) ∧
    (checkCollisions bodies).Pairwise (fun r r2 =>
      ¬(r.id1 = r2.id1 ∧ r.id2 = r2.id2) ∧ ¬(r.id1 = r2.id2 ∧ r.id2 = r2.id1)) := by
  induction bodies with
  | nil => simp [checkCollisions]
  | cons b rest ih =>
      obtain ⟨hb, hnd2⟩ := List.nodup_cons.mp (by rwa [List.map_cons] at hnd)
      obtain ⟨ih1, ih2⟩ := ih hnd2
      constructor
      · intro r hr
        simp only [checkCollisions, List.mem_append] at hr
        rcases hr with hr | hr
        · obtain ⟨h1, h2, h3, h4⟩ := mem_collectPairs b rest r hr
          refine ⟨?_, h3, h4⟩
          rw [h1]
          intro hx
          rw [← hx] at h2
          exact hb h2
        · exact ih1 r hr
      · simp only [checkCollisions]
        rw [List.pairwise_append]
        refine ⟨pairwise_collectPairs b rest hb hnd2, ih2, ?_⟩
        intro x hx y hy
        obtain ⟨hx1, hx2, _, _⟩ := mem_collectPairs b rest x hx
        obtain ⟨hy1, hy2⟩ := mem_checkCollisions_ids rest y hy
        constructor
        · rintro ⟨hq, _⟩
          rw [hx1] at hq
          rw [← hq] at hy1
          exact hb hy1
        · rintro ⟨hq, _⟩
          rw [hx1] at hq
          rw [← hq] at hy2
          exact hb hy2

/-- Witness for C10 at two concrete overlapping rational rectangles. -/
theorem satC10_witness :
    (([("a", (⟨0, 0, 2, 2⟩ : AABB ℚ)), ("b", ⟨1, 1, 2, 2⟩)].map Prod.fst).Nodup) ∧
    ((∀ r ∈ checkCollisions [("a", (⟨0, 0, 2, 2⟩ : AABB ℚ)), ("b", ⟨1, 1, 2, 2⟩)],
      r.id1 ≠ r.id2 ∧ 0 < r.overlap.width ∧ 0 < r.overlap.height) ∧
    (checkCollisions [("a", (⟨0, 0, 2, 2⟩ : AABB ℚ)), ("b", ⟨1, 1, 2, 2⟩)]).Pairwise
      (fun r r2 => ¬(r.id1 = r2.id1 ∧ r.id2 = r2.id2) ∧
        ¬(r.id1 = r2.id2 ∧ r.id2 = r2.id1))) :=
  ⟨by decide, satC10 [("a", (⟨0, 0, 2, 2⟩ : AABB ℚ)), ("b", ⟨1, 1, 2, 2⟩)] (by decide)⟩

end
